import Mathlib

/-!
# covent: the task / promise machinery of `include/covent/task.hh`

A shallow embedding of the coroutine task type, its promise and the final
awaiter.  Coroutine frames live in a heap indexed by frame address; the calls
`coroutine_handle::resume()` and `coroutine_handle::destroy()` are recorded in
an event trace, in the order in which they are issued.  Member functions that
may throw return an `Except` together with the state they leave behind.
-/

namespace covent

/-! ## Handles, frames and the heap -/

/-- Type-erased `std::coroutine_handle<>`. -/
inductive coroutine_handle where
  /-- value-initialised handle, `nullptr` -/
  | null
  /-- the handle returned by `std::noop_coroutine()` -/
  | noop
  /-- handle of the frame stored at `addr` -/
  | frame (addr : Nat)
  deriving DecidableEq, Repr

/-- Typed handle `std::coroutine_handle<promise_type>` (`task::handle_type`):
`none` is `nullptr`, `some a` designates the frame stored at address `a`. -/
abbrev handle_type := Option Nat

/-- Conversion `coroutine_handle<P>` to `coroutine_handle<>`. -/
def handle_type.erase : handle_type → coroutine_handle
  | none => .null
  | some a => .frame a

/-- The three shapes of `ResultType` the templates distinguish. -/
inductive ResultKind where
  /-- `ResultType` is `void` -/
  | void
  /-- `ResultType` is an lvalue reference `R&` -/
  | ref
  /-- any other `ResultType` -/
  | value
  deriving DecidableEq, Repr

/-- `promise::ResultIsVoid`. -/
def ResultIsVoid : ResultKind → Bool
  | .void => true
  | _ => false

/-- `promise::ResultIsRef`. -/
def ResultIsRef : ResultKind → Bool
  | .ref => true
  | _ => false

/-- An lvalue reference `R&`, identified by the address of its referent. -/
structure Ref (R : Type) where
  addr : Nat
  deriving DecidableEq, Repr

/-- `std::addressof(val)`. -/
def addressof {R : Type} (val : Ref R) : Nat := val.addr

/-- Dereference `*p` of a pointer to `R`: the lvalue at that address. -/
def deref {R : Type} (p : Nat) : Ref R := ⟨p⟩

/-- Second alternative of `promise::ResultHolderType`:
`std::monostate` for `void`, `ResultTypeUnref*` for a reference,
`ResultType` otherwise. -/
@[reducible] def ValueSlot : ResultKind → Type → Type
  | .void, _ => Unit
  | .ref, _ => Nat
  | .value, R => R

/-- What `task::await_resume` hands back: nothing for `void`, otherwise an
lvalue (for a reference result the referent, for a value result the object
stored in the promise, read here as its value). -/
@[reducible] def Returned : ResultKind → Type → Type
  | .void, _ => Unit
  | .ref, R => Ref R
  | .value, R => R

/-- `promise::ResultHolderType`, a two-alternative `std::variant`. -/
inductive ResultHolderType (E V : Type) where
  /-- index 0: `std::exception_ptr`; `none` is the null pointer -/
  | exception (p : Option E)
  /-- index 1: value, empty marker or pointer -/
  | value (v : V)
  deriving DecidableEq, Repr

/-- `result.index()`. -/
def ResultHolderType.index {E V : Type} : ResultHolderType E V → Nat
  | .exception _ => 0
  | .value _ => 1

/-- Data members of `detail::promise`; `loop` names the event loop that
`get_active_loop()` returned at construction. -/
structure promise (E V : Type) where
  loop : Nat
  parent : coroutine_handle
  result : ResultHolderType E V
  deriving DecidableEq, Repr

/-- A coroutine frame: its promise and whether it is suspended at its final
suspend point (`coroutine_handle::done()`). -/
structure Frame (E V : Type) where
  promise : covent.promise E V
  done : Bool
  deriving DecidableEq, Repr

/-- Calls issued on coroutine handles. -/
inductive Event where
  /-- `coroutine_handle::resume()` on the frame at `f` -/
  | resume (f : Nat)
  /-- `coroutine_handle::destroy()` on the frame at `f` -/
  | destroy (f : Nat)
  deriving DecidableEq, Repr

/-- Frame storage by address, and the trace of resume/destroy calls. -/
structure Heap (E V : Type) where
  frames : Nat → Frame E V
  trace : List Event

/-- Replace the promise of the frame at `f` by `g` of it. -/
def Heap.modify_promise {E V : Type} (h : Heap E V) (f : Nat)
    (g : covent.promise E V → covent.promise E V) : Heap E V :=
  { h with
    frames := Function.update h.frames f (Frame.mk (g (h.frames f).promise) (h.frames f).done) }

/-- `explicit operator bool` of a handle. -/
def coroutine_handle.toBool : coroutine_handle → Bool
  | .null => false
  | _ => true

/-- `coroutine_handle<>::done()`.  The no-op coroutine is never done; the call
on a null handle is undefined in C++ and is never reached by the code below. -/
def coroutine_handle.done {E V : Type} (c : coroutine_handle) (h : Heap E V) : Bool :=
  match c with
  | .frame a => (h.frames a).done
  | .noop => false
  | .null => false

/-- `coro.done()` on a typed handle. -/
def handle_type.done {E V : Type} (c : handle_type) (h : Heap E V) : Bool :=
  (handle_type.erase c).done h

/-- `coro.resume()`: control is transferred into the frame.  Only reached with
a non-null handle. -/
def handle_type.resume {E V : Type} (c : handle_type) (h : Heap E V) : Heap E V :=
  match c with
  | some a => { h with trace := h.trace ++ [Event.resume a] }
  | none => h

/-- `coro.destroy()`.  Only reached with a non-null handle. -/
def handle_type.destroy {E V : Type} (c : handle_type) (h : Heap E V) : Heap E V :=
  match c with
  | some a => { h with trace := h.trace ++ [Event.destroy a] }
  | none => h

/-! ## detail::promise -/

/-- `promise::promise()`: `parent` and `result` are value-initialised, so the
holder is in alternative 0 with a null `exception_ptr`. -/
def promise.ctor {E V : Type} (active_loop : Nat) : covent.promise E V :=
  { loop := active_loop, parent := .null, result := .exception none }

/-- `promise::unhandled_exception()`; `current_exception` is what
`std::current_exception()` yields inside the handler. -/
def promise.unhandled_exception {E V : Type} (p : covent.promise E V)
    (current_exception : E) : covent.promise E V :=
  { p with result := .exception (some current_exception) }

/-- `promise::return_value(V&& val)` for a value result: `emplace<1>(val)`. -/
def promise.return_value {E R : Type} (p : covent.promise E (ValueSlot .value R))
    (val : R) : covent.promise E (ValueSlot .value R) :=
  { p with result := .value val }

/-- `promise::return_value(V& val)` for a reference result:
`emplace<1>(std::addressof(val))`. -/
def promise.return_value_ref {E R : Type} (p : covent.promise E (ValueSlot .ref R))
    (val : Ref R) : covent.promise E (ValueSlot .ref R) :=
  { p with result := .value (addressof val) }

/-- `promise::return_void()`: stores `std::monostate` under
`if constexpr(ResultIsVoid)`, does nothing otherwise. -/
def promise.return_void {E R : Type} :
    (k : ResultKind) → covent.promise E (ValueSlot k R) → covent.promise E (ValueSlot k R)
  | .void, p => { p with result := .value () }
  | .ref, p => p
  | .value, p => p

/-! ## covent::task -/

/-- Data members of `task`; `was_started` carries the default member
initialiser of the class. -/
structure task where
  coro : handle_type
  was_started : Bool := true
  deriving DecidableEq, Repr

/-- What a result access may throw. -/
inductive Thrown (E : Type) where
  /-- `throw broken_promise()` -/
  | broken_promise
  /-- `std::rethrow_exception(p)` -/
  | rethrow_exception (p : Option E)
  deriving DecidableEq, Repr

/-- `task::task(handle_type c)`. -/
def task.ctor (c : handle_type) : task :=
  { coro := c }

/-- `task::task(task&& other)`: the new task, and `other` afterwards. -/
def task.move_ctor (other : task) : task × task :=
  ({ coro := other.coro }, { other with coro := none })

/-- `task::started()`. -/
def task.started (t : task) : Bool :=
  t.was_started

/-- `task::done()`. -/
def task.done {E V : Type} (t : task) (h : Heap E V) : Bool :=
  t.coro == none || handle_type.done t.coro h

/-- `task::await_ready()`. -/
def task.await_ready {E V : Type} (t : task) (h : Heap E V) : Bool :=
  t.done h

/-- `task::await_resume()`, one clause per overload: what the call returns or
throws, and the task and heap it leaves behind. -/
def task.await_resume {E R : Type} :
    (k : ResultKind) → task → Heap E (ValueSlot k R) →
      Except (Thrown E) (Returned k R) × task × Heap E (ValueSlot k R)
  | .ref, t, h =>
    match t.coro with
    | none => (.error .broken_promise, t, h)
    | some a =>
      match (h.frames a).promise.result with
      | .exception exc => (.error (.rethrow_exception exc), t, h)
      | .value p => (.ok (deref p), t, h)
  | .value, t, h =>
    match t.coro with
    | none => (.error .broken_promise, t, h)
    | some a =>
      match (h.frames a).promise.result with
      | .exception exc => (.error (.rethrow_exception exc), t, h)
      | .value v => (.ok v, t, h)
  | .void, t, h =>
    match t.coro with
    | none => (.error .broken_promise, t, h)
    | some a =>
      match (h.frames a).promise.result with
      | .exception exc => (.error (.rethrow_exception exc), t, h)
      | .value _ => (.ok (), t, h)

/-- `task::result()`: `return await_resume();` under
`if constexpr(!ResultIsVoid)`; for `void` the statement is discarded and the
function body is empty. -/
def task.result {E R : Type} :
    (k : ResultKind) → task → Heap E (ValueSlot k R) →
      Except (Thrown E) (Returned k R) × task × Heap E (ValueSlot k R)
  | .ref, t, h => task.await_resume .ref t h
  | .value, t, h => task.await_resume .value t h
  | .void, t, h => (.ok (), t, h)

/-- The `std::runtime_error` thrown by `start()` and `resume()`.  Both are
`noexcept`, so the throw ends the program. -/
structure runtime_error where
  what : String
  deriving DecidableEq, Repr

/-- `task::start()`: the outcome, and the task and heap left behind. -/
def task.start {E V : Type} (t : task) (h : Heap E V) :
    Except runtime_error Unit × task × Heap E V :=
  if t.done h then
    (.error ⟨"Cannot start a task that is already done."⟩, t, h)
  else if t.was_started then
    (.error ⟨"Cannot start a task that is already running."⟩, t, h)
  else
    let t1 : task := { t with was_started := true }
    (.ok (), t1, handle_type.resume t1.coro h)

/-- `task::resume()`: the outcome, and the task and heap left behind. -/
def task.resume {E V : Type} (t : task) (h : Heap E V) :
    Except runtime_error Unit × task × Heap E V :=
  if !t.was_started then
    (.error ⟨"Cannot resume a task that is not running."⟩, t, h)
  else if t.done h then
    (.error ⟨"Cannot resume a task that is already done."⟩, t, h)
  else
    (.ok (), t, handle_type.resume t.coro h)

/-- `task::await_suspend(awaiting_coro)`: the handle returned, and the task and
heap left behind.  `none` when `coro` is null, where `coro.promise()` is
undefined. -/
def task.await_suspend {E V : Type} (t : task) (awaiting_coro : coroutine_handle)
    (h : Heap E V) : Option (coroutine_handle × task × Heap E V) :=
  match t.coro with
  | some a =>
    some (handle_type.erase t.coro, t,
      h.modify_promise a (fun p => { p with parent := awaiting_coro }))
  | none => none

/-- `task::~task()`. -/
def task.dtor {E V : Type} (t : task) (h : Heap E V) : Heap E V :=
  if t.coro != none then handle_type.destroy t.coro h else h

/-! ## detail::final_awaiter -/

/-- `final_awaiter::await_ready()`. -/
def final_awaiter.await_ready : Bool := false

/-- `final_awaiter::await_suspend(c)` for the frame at `c`. -/
def final_awaiter.await_suspend {E V : Type} (c : Nat) (h : Heap E V) : coroutine_handle :=
  let parent := (h.frames c).promise.parent
  if parent.toBool && !parent.done h then parent else .noop

/-! ## Frame bodies and a system of task objects -/

/-- `promise::get_return_object()` of the promise in the frame at `a`:
`{ handle_type::from_promise(*this) }`. -/
def promise.get_return_object (a : Nat) : task :=
  task.ctor (some a)

/-- What the body of a coroutine does to its own frame: the promise member it
calls when it raises or returns, and its arrival at the final suspend point. -/
inductive BodyEvent (E R : Type) where
  /-- an exception leaves the body -/
  | unhandled_exception (e : E)
  /-- `co_return val;` with a value result -/
  | return_value (val : R)
  /-- `co_return val;` with a reference result -/
  | return_value_ref (val : Ref R)
  /-- `co_return;` or the end of the body -/
  | return_void
  /-- the frame suspends at its final suspend point -/
  | final_suspend

/-- The frame after a body event; `none` where the body of a coroutine with
result kind `k` cannot perform the event.  A body returns through exactly one
member of its promise: `return_value` when the result is a value,
`return_value` taking a reference when it is a reference, `return_void` when
it is `void` (a promise serves `co_return` with an operand or without one,
never both). -/
def BodyEvent.apply {E R : Type} :
    (k : ResultKind) → BodyEvent E R → Frame E (ValueSlot k R) →
      Option (Frame E (ValueSlot k R))
  | _, .unhandled_exception e, fr => some ⟨fr.promise.unhandled_exception e, fr.done⟩
  | .value, .return_value val, fr => some ⟨fr.promise.return_value val, fr.done⟩
  | .ref, .return_value_ref val, fr => some ⟨fr.promise.return_value_ref val, fr.done⟩
  | .void, .return_void, fr => some ⟨promise.return_void .void fr.promise, fr.done⟩
  | _, .final_suspend, fr => some ⟨fr.promise, true⟩
  | _, _, _ => none

/-- A body event of the frame at `f`, on the heap. -/
def Heap.body {E R : Type} (k : ResultKind) (h : Heap E (ValueSlot k R)) (f : Nat)
    (ev : BodyEvent E R) : Option (Heap E (ValueSlot k R)) :=
  match ev.apply k (h.frames f) with
  | some fr => some { h with frames := Function.update h.frames f fr }
  | none => none

/-- A sequence of body events, each tagged with the frame it happens in. -/
def Heap.run_body {E R : Type} (k : ResultKind) (h : Heap E (ValueSlot k R)) :
    List (Nat × BodyEvent E R) → Option (Heap E (ValueSlot k R))
  | [] => some h
  | (f, ev) :: rest =>
    match h.body k f ev with
    | some h1 => Heap.run_body k h1 rest
    | none => none

/-- The heap together with the task objects alive in the program.  Task
objects are told apart by their identity (`std::addressof`); `tasks i` is
`none` when no task object is alive at identity `i`. -/
structure System (k : ResultKind) (E R : Type) where
  heap : Heap E (ValueSlot k R)
  next_frame : Nat
  tasks : Nat → Option task
  next_task : Nat

/-- The program before any coroutine has been called. -/
def System.init (k : ResultKind) (E R : Type) : System k E R :=
  { heap := { frames := fun _ => ⟨promise.ctor 0, false⟩, trace := [] },
    next_frame := 0,
    tasks := fun _ => none,
    next_task := 0 }

/-- Operations of a program on its tasks and frames. -/
inductive Op (E R : Type) where
  /-- call of a coroutine function: a frame is allocated, its promise is
  constructed and `get_return_object()` builds the task -/
  | call (loop : Nat)
  /-- `task(std::move(src))` -/
  | move_ctor (src : Nat)
  /-- `dst = std::move(src)` -/
  | move_assign (dst src : Nat)
  /-- end of the lifetime of a task object -/
  | dtor (obj : Nat)
  /-- `obj.start()` -/
  | start (obj : Nat)
  /-- `obj.resume()` -/
  | resume (obj : Nat)
  /-- `obj.await_suspend(awaiting_coro)` -/
  | await_suspend (obj : Nat) (awaiting_coro : coroutine_handle)
  /-- a body event of the frame at `f` -/
  | body (f : Nat) (ev : BodyEvent E R)

/-- The call of a coroutine function. -/
def System.call {k : ResultKind} {E R : Type} (s : System k E R) (loop : Nat) :
    System k E R :=
  let a := s.next_frame
  let fr : Frame E (ValueSlot k R) := ⟨promise.ctor loop, false⟩
  { heap := { s.heap with frames := Function.update s.heap.frames a fr },
    next_frame := a + 1,
    tasks := Function.update s.tasks s.next_task (some (promise.get_return_object a)),
    next_task := s.next_task + 1 }

/-- Move construction of a new task object from the one at `src`. -/
def System.move_ctor {k : ResultKind} {E R : Type} (s : System k E R) (src : Nat) :
    Option (System k E R) :=
  match s.tasks src with
  | some other =>
    let r := task.move_ctor other
    some { s with
      tasks := Function.update (Function.update s.tasks src (some r.2)) s.next_task (some r.1),
      next_task := s.next_task + 1 }
  | none => none

/-- `task::operator=(task&& other)` on the object at `dst`, with `other` the
object at `src`. -/
def System.move_assign {k : ResultKind} {E R : Type} (s : System k E R) (dst src : Nat) :
    Option (System k E R) :=
  match s.tasks dst, s.tasks src with
  | some self, some other =>
    if src ≠ dst then
      let h1 := if self.coro != none then handle_type.destroy self.coro s.heap else s.heap
      let self1 : task := { self with coro := other.coro }
      let other1 : task := { other with coro := none }
      some { s with
        heap := h1,
        tasks := Function.update (Function.update s.tasks dst (some self1)) src (some other1) }
    else
      some s
  | _, _ => none

/-- Destruction of the task object at `obj`. -/
def System.dtor {k : ResultKind} {E R : Type} (s : System k E R) (obj : Nat) :
    Option (System k E R) :=
  match s.tasks obj with
  | some t => some { s with heap := t.dtor s.heap, tasks := Function.update s.tasks obj none }
  | none => none

/-- One operation; `none` when it names a task object that is not alive or a
frame that is not allocated or already destroyed, when the program is ended
by a throw out of a `noexcept` function, or when its behaviour is undefined. -/
def System.step {k : ResultKind} {E R : Type} (s : System k E R) :
    Op E R → Option (System k E R)
  | .call loop => some (s.call loop)
  | .move_ctor src => s.move_ctor src
  | .move_assign dst src => s.move_assign dst src
  | .dtor obj => s.dtor obj
  | .start obj =>
    match s.tasks obj with
    | some t =>
      match t.start s.heap with
      | (.ok _, t1, h1) => some { s with heap := h1, tasks := Function.update s.tasks obj (some t1) }
      | (.error _, _, _) => none
    | none => none
  | .resume obj =>
    match s.tasks obj with
    | some t =>
      match t.resume s.heap with
      | (.ok _, t1, h1) => some { s with heap := h1, tasks := Function.update s.tasks obj (some t1) }
      | (.error _, _, _) => none
    | none => none
  | .await_suspend obj awaiting_coro =>
    match s.tasks obj with
    | some t =>
      match t.await_suspend awaiting_coro s.heap with
      | some (_, t1, h1) => some { s with heap := h1, tasks := Function.update s.tasks obj (some t1) }
      | none => none
    | none => none
  | .body f ev =>
    if f < s.next_frame ∧ Event.destroy f ∉ s.heap.trace then
      match s.heap.body k f ev with
      | some h1 => some { s with heap := h1 }
      | none => none
    else
      none

/-- A sequence of operations, from left to right. -/
def System.run {k : ResultKind} {E R : Type} (s : System k E R) :
    List (Op E R) → Option (System k E R)
  | [] => some s
  | op :: rest =>
    match s.step op with
    | some s1 => s1.run rest
    | none => none

/-! ## Ownership of frames: what is counted, and the invariant -/

/-- The task object at identity `i` is alive and owns the frame at `a`. -/
def System.owns {k : ResultKind} {E R : Type} (s : System k E R) (i a : Nat) : Prop :=
  ∃ t, s.tasks i = some t ∧ t.coro = some a

/-- Number of `destroy()` calls issued so far on the frame at `a`. -/
def System.destroy_count {k : ResultKind} {E R : Type} (s : System k E R) (a : Nat) : Nat :=
  s.heap.trace.count (Event.destroy a)

/-- What holds of every system reached from `System.init`. -/
structure System.Inv {k : ResultKind} {E R : Type} (s : System k E R) : Prop where
  bound : ∀ i, s.next_task ≤ i → s.tasks i = none
  live : ∀ i a, s.owns i a → a < s.next_frame ∧ s.destroy_count a = 0
  unique : ∀ i j a, s.owns i a → s.owns j a → i = j
  accounted : ∀ a, a < s.next_frame → s.destroy_count a = 1 ∨ ∃ i, s.owns i a
  fresh : ∀ a, s.next_frame ≤ a → s.destroy_count a = 0
  started : ∀ i t, s.tasks i = some t → t.was_started = true

/-! ## How a body ends -/

/-- An awaitable class `T`: its three members, each taking the state of the
object it is called on and giving what it returns and the state it leaves. -/
structure Awaitable (σ ρ : Type) where
  await_ready : σ → Bool × σ
  await_suspend : coroutine_handle → σ → coroutine_handle × σ
  await_resume : σ → ρ × σ

/-- Awaitable objects by address. -/
abbrev ObjectStore (σ : Type) := Nat → σ

/-- A member call on the object stored at address `a`: the member runs on the
state found there and the state it leaves is stored there. -/
def ObjectStore.call {σ α : Type} (member : σ → α × σ) (a : Nat) (m : ObjectStore σ) :
    α × ObjectStore σ :=
  ((member (m a)).1, Function.update m a (member (m a)).2)

/-- Data member of `id_awaiter<T>`: the reference `T& aw`, held as the address
of its referent. -/
structure id_awaiter where
  aw : Nat
  deriving DecidableEq, Repr

/-- `id_awaiter::id_awaiter(T& a) : aw(a)`. -/
def id_awaiter.ctor (a : Nat) : id_awaiter :=
  { aw := a }

/-- `promise::await_transform(T&& aw)`: `return { aw };` for the awaitable
stored at address `aw`. -/
def promise.await_transform (aw : Nat) : id_awaiter :=
  id_awaiter.ctor aw

/-- `id_awaiter::await_ready()`: `return aw.await_ready();`. -/
def id_awaiter.await_ready {σ ρ : Type} (T : Awaitable σ ρ) (self : id_awaiter)
    (m : ObjectStore σ) : Bool × ObjectStore σ :=
  ObjectStore.call T.await_ready self.aw m

/-- `id_awaiter::await_suspend(awaiting_coro)`:
`return aw.await_suspend(awaiting_coro);`. -/
def id_awaiter.await_suspend {σ ρ : Type} (T : Awaitable σ ρ) (self : id_awaiter)
    (awaiting_coro : coroutine_handle) (m : ObjectStore σ) :
    coroutine_handle × ObjectStore σ :=
  ObjectStore.call (T.await_suspend awaiting_coro) self.aw m

/-- `id_awaiter::await_resume()` under `requires (!ResultIsVoid)`:
`return aw.await_resume();`. -/
def id_awaiter.await_resume {σ ρ : Type} (T : Awaitable σ ρ) (self : id_awaiter)
    (m : ObjectStore σ) : ρ × ObjectStore σ :=
  ObjectStore.call T.await_resume self.aw m

/-- `id_awaiter::await_resume()` under `requires (ResultIsVoid)`:
`aw.await_resume();`, nothing is returned. -/
def id_awaiter.await_resume_void {σ : Type} (T : Awaitable σ Unit) (self : id_awaiter)
    (m : ObjectStore σ) : Unit × ObjectStore σ :=
  ((), (ObjectStore.call T.await_resume self.aw m).2)

/-- The spec's pass-through, in its own words: readiness is forwarded to the
awaitable at `a`. -/
def forwarded_ready {σ ρ : Type} (T : Awaitable σ ρ) (a : Nat) (m : ObjectStore σ) :
    Bool × ObjectStore σ :=
  ((T.await_ready (m a)).1, fun b => if b = a then (T.await_ready (m a)).2 else m b)

/-- The spec's pass-through, in its own words: suspension is forwarded to the
awaitable at `a`. -/
def forwarded_suspend {σ ρ : Type} (T : Awaitable σ ρ) (a : Nat) (c : coroutine_handle)
    (m : ObjectStore σ) : coroutine_handle × ObjectStore σ :=
  ((T.await_suspend c (m a)).1, fun b => if b = a then (T.await_suspend c (m a)).2 else m b)

/-- The spec's pass-through, in its own words: resumption is forwarded to the
awaitable at `a`. -/
def forwarded_resume {σ ρ : Type} (T : Awaitable σ ρ) (a : Nat) (m : ObjectStore σ) :
    ρ × ObjectStore σ :=
  ((T.await_resume (m a)).1, fun b => if b = a then (T.await_resume (m a)).2 else m b)

/-! ## uring::awaiter_sqe -/

/-- Modelled from the spec: the type `res_t` of the result code, declared
outside the header; it is signed, a negative code reports a failure. -/
abbrev res_t := Int

/-- Modelled from the spec: the type `flags_t` of the flags word, declared
outside the header. -/
abbrev flags_t := Nat

/-- Data members of `awaiter_sqe` with their default member initialisers;
`loop` names the event loop the reference is bound to. -/
structure awaiter_sqe where
  loop : Nat
  res : res_t := 0
  flags : flags_t := 0
  deriving DecidableEq, Repr

/-- Modelled from the spec: the constructor `awaiter_sqe::awaiter_sqe(evloop&)`,
declared in the header and defined outside it.  It binds the reference to the
owning loop; result code and flags are "populated once by the loop when the
corresponding completion arrives", so construction leaves them to the default
member initialisers of the class. -/
def awaiter_sqe.ctor (loop : Nat) : awaiter_sqe :=
  { loop := loop }

/-- Modelled from the spec: `awaiter_sqe::complete(res_t, flags_t)`, declared
in the header and defined outside it: "stores the two fields; does not itself
resume anything". -/
def awaiter_sqe.complete (self : awaiter_sqe) (res : res_t) (flags : flags_t) :
    awaiter_sqe :=
  { self with res := res, flags := flags }

/-- The two fields of `__kernel_timespec`. -/
structure kernel_timespec where
  tv_sec : Int
  tv_nsec : Int
  deriving DecidableEq, Repr

/-- Data members of `awaiter_sqe_sleep`: those of the base class, and `ts`. -/
structure awaiter_sqe_sleep extends awaiter_sqe where
  ts : kernel_timespec
  deriving DecidableEq, Repr

/-- Modelled from the spec: the constructor
`awaiter_sqe_sleep::awaiter_sqe_sleep(evloop&, std::chrono::nanoseconds&&)`,
declared in the header and defined outside it.  It constructs the base with
the loop and encodes the duration into the timeout request. -/
def awaiter_sqe_sleep.ctor (loop : Nat) (ns : Int) : awaiter_sqe_sleep :=
  { toawaiter_sqe := awaiter_sqe.ctor loop, ts := ⟨ns / 1000000000, ns % 1000000000⟩ }

/-- The awaiters constructed so far, by identity, and the identities on which
`complete` has been called. -/
structure AwaiterPool where
  awaiters : Nat → Option awaiter_sqe
  next : Nat
  completed : List Nat

/-- No awaiter has been constructed. -/
def AwaiterPool.init : AwaiterPool :=
  { awaiters := fun _ => none, next := 0, completed := [] }

/-- What the loop does with awaiters. -/
inductive AwaiterOp where
  /-- a kernel-completion awaiter is constructed for a request -/
  | construct (loop : Nat)
  /-- a sleep awaiter is constructed for a request -/
  | construct_sleep (loop : Nat) (ns : Int)
  /-- the completion of the request of awaiter `i` is delivered -/
  | complete (i : Nat) (res : res_t) (flags : flags_t)

/-- One operation on the pool; a completion for an identity without awaiter
changes nothing. -/
def AwaiterPool.step (p : AwaiterPool) : AwaiterOp → AwaiterPool
  | .construct loop =>
    { p with awaiters := Function.update p.awaiters p.next (some (awaiter_sqe.ctor loop)),
             next := p.next + 1 }
  | .construct_sleep loop ns =>
    { p with
      awaiters := Function.update p.awaiters p.next
        (some (awaiter_sqe_sleep.ctor loop ns).toawaiter_sqe),
      next := p.next + 1 }
  | .complete i res flags =>
    match p.awaiters i with
    | some aw =>
      { p with awaiters := Function.update p.awaiters i (some (aw.complete res flags)),
               completed := i :: p.completed }
    | none => p

/-- A sequence of operations on the pool, from left to right. -/
def AwaiterPool.run (p : AwaiterPool) : List AwaiterOp → AwaiterPool
  | [] => p
  | op :: rest => (p.step op).run rest

/-! ## Concrete programs used by the examples -/

/-- A heap in which every frame has default-constructed contents. -/
def blank_heap (k : ResultKind) (E R : Type) : Heap E (ValueSlot k R) :=
  { frames := fun _ => ⟨promise.ctor 0, false⟩, trace := [] }

/-- A `void` coroutine at address 0 whose body raised `"E"` and which has
reached its final suspend point. -/
def raised_void_heap : Heap String (ValueSlot .void Unit) :=
  { frames := fun _ => ⟨(promise.ctor 0).unhandled_exception "E", true⟩, trace := [] }

/-- An `int` coroutine at address 0 whose body raised `"E"`. -/
def raised_value_heap : Heap String (ValueSlot .value Int) :=
  { frames := fun _ => ⟨(promise.ctor 0).unhandled_exception "E", true⟩, trace := [] }

/-- An `int` coroutine at address 0 whose body returned 42. -/
def returned_value_heap : Heap String (ValueSlot .value Int) :=
  { frames := fun _ => ⟨promise.return_value (promise.ctor 0) (42 : Int), true⟩, trace := [] }

/-- Operations of the example program: two coroutine calls, a move
construction, a move assignment onto the second task, and the destruction of
all three task objects. -/
def demo_ops : List (Op String Int) :=
  [.call 0, .call 0, .move_ctor 0, .move_assign 1 2, .dtor 0, .dtor 1, .dtor 2]

/-- The example program after `demo_ops`. -/
def demo_final : System .value String Int :=
  match (System.init .value String Int).run demo_ops with
  | some s => s
  | none => System.init .value String Int

/-- The example program after one coroutine call. -/
def demo_called : System .value String Int :=
  (System.init .value String Int).call 0

/-- Every frame is finished and records the frame at 1 as its parent. -/
def finished_parent_heap : Heap String (ValueSlot .value Int) :=
  { frames := fun _ => ⟨⟨0, .frame 1, .exception none⟩, true⟩, trace := [] }

/-- An awaitable that counts the calls of `await_ready` and is ready from the
second call on; it resumes the awaiting frame and returns its count. -/
def counting_awaitable : Awaitable Nat Nat :=
  { await_ready := fun n => (decide (1 ≤ n), n + 1),
    await_suspend := fun c n => (c, n),
    await_resume := fun n => (n, n) }

/-- An awaiter is constructed and completed with result -4 and flags 7, then
a second awaiter is constructed. -/
def stale_ops : List AwaiterOp :=
  [.construct 0, .complete 0 (-4) 7, .construct 0]

/-! # Theorems -/

/-! ## Result access -/

/-- C1 (amended): when the body of the frame a task owns raised `e`, so that
`unhandled_exception` stored `e` in the result holder, `await_resume()`
rethrows exactly `e` for value, reference and void results, and so does
`result()` for value and reference results; the access leaves task, holder
and trace as they were, so a second access from the state left behind rethrows
`e` again.  `result()` of a `void` task makes no access and returns normally. -/
theorem captured_failure_is_rethrown {E R : Type} (k : ResultKind) (t : task) (a : Nat)
    (h : Heap E (ValueSlot k R)) (p0 : promise E (ValueSlot k R)) (e : E)
    (hown : t.coro = some a)
    (hraised : (h.frames a).promise.result = (p0.unhandled_exception e).result) :
    task.await_resume k t h = (.error (.rethrow_exception (some e)), t, h)
    ∧ task.await_resume k (task.await_resume k t h).2.1 (task.await_resume k t h).2.2
        = (.error (.rethrow_exception (some e)), t, h)
    ∧ (k ≠ .void → task.result k t h = (.error (.rethrow_exception (some e)), t, h))
    ∧ (k ≠ .void → task.result k (task.result k t h).2.1 (task.result k t h).2.2
        = (.error (.rethrow_exception (some e)), t, h))
    ∧ (∀ (u : task) (hv : Heap E (ValueSlot .void R)),
        task.result .void u hv = (.ok (), u, hv)) := by
  have key : task.await_resume k t h = (.error (.rethrow_exception (some e)), t, h) := by
    cases k <;>
      simp only [task.await_resume, hown, promise.unhandled_exception] at hraised ⊢ <;>
      rw [hraised]
  have key2 : k ≠ .void →
      task.result k t h = (.error (.rethrow_exception (some e)), t, h) := by
    intro hk
    cases k
    · exact absurd rfl hk
    · simpa [task.result] using key
    · simpa [task.result] using key
  refine ⟨key, ?_, key2, ?_, ?_⟩
  · rw [key]
    exact key
  · intro hk
    rw [key2 hk]
    exact key2 hk
  · intro u hv
    rfl

/-- Instance of C1 (amended): an `int` task whose body raised `"E"`. -/
theorem captured_failure_is_rethrown_witness :
    (task.ctor (some 0)).coro = some 0
    ∧ task.await_resume .value (task.ctor (some 0)) raised_value_heap
        = (.error (.rethrow_exception (some "E")), task.ctor (some 0), raised_value_heap)
    ∧ task.result .value (task.ctor (some 0)) raised_value_heap
        = (.error (.rethrow_exception (some "E")), task.ctor (some 0), raised_value_heap) :=
  have w := captured_failure_is_rethrown (R := Int) .value (task.ctor (some 0)) 0
    raised_value_heap (promise.ctor 0) "E" rfl rfl
  ⟨rfl, w.1, w.2.2.1 (by decide)⟩

/-- C1 as stated fails: the body of the `void` coroutine at address 0 raised
`"E"`, yet `result()` on the task that owns it returns normally. -/
theorem result_void_drops_captured_failure :
    (task.ctor (some 0)).coro = some 0
    ∧ (raised_void_heap.frames 0).promise.result
        = ((promise.ctor 0 : promise String (ValueSlot .void Unit)).unhandled_exception "E").result
    ∧ (task.result .void (task.ctor (some 0)) raised_void_heap).1 = .ok ()
    ∧ (task.result .void (task.ctor (some 0)) raised_void_heap).1
        ≠ .error (.rethrow_exception (some "E")) := by
  refine ⟨rfl, rfl, rfl, ?_⟩
  intro hc
  cases hc

/-- C2: when the body of the frame a task owns returned `v` through
`return_value`, `await_resume()` and `result()` hand back `v` and leave task,
promise and trace as they were (the body is not resumed), so an access from the
state left behind hands back `v` again.  For a reference result the holder
stores the address of the referent and the access hands back that very
referent. -/
theorem returned_value_is_handed_back {E R : Type} (t : task) (a : Nat)
    (hown : t.coro = some a) :
    (∀ (h : Heap E (ValueSlot .value R)) (p0 : promise E (ValueSlot .value R)) (v : R),
      (h.frames a).promise.result = (p0.return_value v).result →
        task.await_resume .value t h = (.ok v, t, h)
        ∧ task.result .value t h = (.ok v, t, h)
        ∧ task.await_resume .value (task.await_resume .value t h).2.1
            (task.await_resume .value t h).2.2 = (.ok v, t, h)
        ∧ task.result .value (task.result .value t h).2.1
            (task.result .value t h).2.2 = (.ok v, t, h))
    ∧ (∀ (h : Heap E (ValueSlot .ref R)) (p0 : promise E (ValueSlot .ref R)) (val : Ref R),
      (h.frames a).promise.result = (p0.return_value_ref val).result →
        (h.frames a).promise.result = .value (addressof val)
        ∧ task.await_resume .ref t h = (.ok val, t, h)
        ∧ task.result .ref t h = (.ok val, t, h)
        ∧ task.await_resume .ref (task.await_resume .ref t h).2.1
            (task.await_resume .ref t h).2.2 = (.ok val, t, h)
        ∧ task.result .ref (task.result .ref t h).2.1
            (task.result .ref t h).2.2 = (.ok val, t, h)) := by
  constructor
  · intro h p0 v hret
    have key : task.await_resume .value t h = (.ok v, t, h) := by
      simp only [task.await_resume, hown, promise.return_value] at hret ⊢
      rw [hret]
    have key2 : task.result .value t h = (.ok v, t, h) := key
    refine ⟨key, key2, ?_, ?_⟩
    · rw [key]
      exact key
    · rw [key2]
      exact key2
  · intro h p0 val hret
    have key : task.await_resume .ref t h = (.ok val, t, h) := by
      simp only [task.await_resume, hown, promise.return_value_ref] at hret ⊢
      rw [hret]
      rfl
    have key2 : task.result .ref t h = (.ok val, t, h) := key
    refine ⟨hret, key, key2, ?_, ?_⟩
    · rw [key]
      exact key
    · rw [key2]
      exact key2

/-- Instance of C2: an `int` task whose body returned 42. -/
theorem returned_value_is_handed_back_witness :
    (task.ctor (some 0)).coro = some 0
    ∧ task.await_resume .value (task.ctor (some 0)) returned_value_heap
        = (.ok (42 : Int), task.ctor (some 0), returned_value_heap)
    ∧ task.result .value (task.ctor (some 0)) returned_value_heap
        = (.ok (42 : Int), task.ctor (some 0), returned_value_heap) :=
  have w := (returned_value_is_handed_back (E := String) (R := Int) (task.ctor (some 0)) 0
    rfl).1 returned_value_heap (promise.ctor 0) 42 rfl
  ⟨rfl, w.1, w.2.1⟩

/-- C3 (amended): on a task that owns no frame, `await_resume()` throws
`broken_promise` for value, reference and void results, and so does `result()`
for value and reference results; the outcome does not depend on the heap and
the heap is left as it was.  The source of a move construction is such a task.
`result()` of a `void` task returns normally also without a frame. -/
theorem result_access_without_frame_is_broken {E R : Type} (k : ResultKind) (t : task)
    (h : Heap E (ValueSlot k R)) (hnone : t.coro = none) :
    task.await_resume k t h = (.error .broken_promise, t, h)
    ∧ (k ≠ .void → task.result k t h = (.error .broken_promise, t, h))
    ∧ (∀ h2 : Heap E (ValueSlot k R),
        (task.await_resume k t h2).1 = (task.await_resume k t h).1
        ∧ (task.result k t h2).1 = (task.result k t h).1)
    ∧ (∀ u : task,
        task.await_resume k (task.move_ctor u).2 h
          = (.error .broken_promise, (task.move_ctor u).2, h))
    ∧ (∀ hv : Heap E (ValueSlot .void R), task.result .void t hv = (.ok (), t, hv)) := by
  have key : ∀ (u : task) (g : Heap E (ValueSlot k R)), u.coro = none →
      task.await_resume k u g = (.error .broken_promise, u, g) := by
    intro u g hu
    cases k <;> simp only [task.await_resume, hu]
  have key2 : ∀ g : Heap E (ValueSlot k R), k ≠ .void →
      task.result k t g = (.error .broken_promise, t, g) := by
    intro g hk
    cases k
    · exact absurd rfl hk
    · simpa [task.result] using key t g hnone
    · simpa [task.result] using key t g hnone
  refine ⟨key t h hnone, key2 h, ?_, ?_, ?_⟩
  · intro h2
    refine ⟨by rw [key t h2 hnone, key t h hnone], ?_⟩
    by_cases hk : k = .void
    · subst hk
      rfl
    · rw [key2 h2 hk, key2 h hk]
  · intro u
    exact key _ h rfl
  · intro hv
    rfl

/-- Instance of C3 (amended): the source of a move construction, with an
`int` result. -/
theorem result_access_without_frame_is_broken_witness :
    (task.move_ctor (task.ctor (some 0))).2.coro = none
    ∧ (task.await_resume .value (task.move_ctor (task.ctor (some 0))).2
        (blank_heap .value String Int)).1 = .error .broken_promise
    ∧ (task.result .value (task.move_ctor (task.ctor (some 0))).2
        (blank_heap .value String Int)).1 = .error .broken_promise :=
  have w := result_access_without_frame_is_broken (E := String) (R := Int) .value
    (task.move_ctor (task.ctor (some 0))).2 (blank_heap .value String Int) rfl
  ⟨rfl, congrArg Prod.fst w.1, congrArg Prod.fst (w.2.1 (by decide))⟩

/-- C3 as stated fails: the moved-from `void` task owns no frame, yet
`result()` on it returns normally instead of throwing `broken_promise`. -/
theorem result_void_without_frame_returns :
    (task.move_ctor (task.ctor (some 0))).2.coro = none
    ∧ (task.result .void (task.move_ctor (task.ctor (some 0))).2
        (blank_heap .void String Unit)).1 = .ok ()
    ∧ (task.result .void (task.move_ctor (task.ctor (some 0))).2
        (blank_heap .void String Unit)).1 ≠ .error .broken_promise := by
  refine ⟨rfl, rfl, ?_⟩
  intro hc
  cases hc

/-! ## Starting and resuming -/

/-- C4 (evaluation of the code): a task constructed from a frame handle
reports `started()` as true before any call of `start()`, because
`was_started` is initialised to `true`; `done()` is false for the unfinished
frame at address 0, as the claim says. -/
theorem fresh_task_reports_started :
    (∀ c : handle_type, (task.ctor c).started = true)
    ∧ (promise.get_return_object 0).started = true
    ∧ (promise.get_return_object 0).done (blank_heap .value String Int) = false := by
  refine ⟨fun c => rfl, rfl, rfl⟩

/-- C5 (evaluation of the code): the first `start()` of the task freshly made
for the unfinished frame at address 0 throws "already running", changes
nothing and resumes nothing; and no freshly constructed task, whatever its
handle and heap, can be started. -/
theorem start_of_fresh_task_is_rejected :
    task.start (promise.get_return_object 0) (blank_heap .value String Int)
      = (.error ⟨"Cannot start a task that is already running."⟩,
          promise.get_return_object 0, blank_heap .value String Int)
    ∧ (∀ (E V : Type) (c : handle_type) (h : Heap E V),
        (task.start (task.ctor c) h).1 ≠ .ok ()
        ∧ (task.start (task.ctor c) h).2 = (task.ctor c, h)) := by
  refine ⟨rfl, ?_⟩
  intro E V c h
  by_cases hd : (task.ctor c).done h = true
  · simp [task.start, hd]
  · have hs : (task.ctor c).was_started = true := rfl
    simp [task.start, hd, hs]

/-- C7: `done()` is true exactly when the task owns no frame or its frame is
at its final suspend point, `await_ready()` returns what `done()` returns, and
the source of a move construction is done and ready. -/
theorem done_iff_no_frame_or_finished {E V : Type} (t : task) (h : Heap E V) :
    (t.done h = true ↔ t.coro = none ∨ ∃ a, t.coro = some a ∧ (h.frames a).done = true)
    ∧ t.await_ready h = t.done h
    ∧ (task.move_ctor t).2.coro = none
    ∧ (task.move_ctor t).2.done h = true
    ∧ (task.move_ctor t).2.await_ready h = true := by
  refine ⟨?_, rfl, rfl, rfl, rfl⟩
  cases hc : t.coro with
  | none => simp [task.done, hc]
  | some a =>
    simp [task.done, hc, handle_type.done, handle_type.erase, coroutine_handle.done]

/-! ## Parent and child -/

/-- No body event writes the parent link of its frame. -/
theorem BodyEvent.apply_parent {E R : Type} (k : ResultKind) (ev : BodyEvent E R)
    (fr fr1 : Frame E (ValueSlot k R)) (hap : ev.apply k fr = some fr1) :
    fr1.promise.parent = fr.promise.parent := by
  cases k <;> cases ev <;> simp [BodyEvent.apply] at hap <;> subst hap <;> rfl

/-- A body event leaves every parent link and the trace as they were. -/
theorem Heap.body_parent {E R : Type} (k : ResultKind) (h h1 : Heap E (ValueSlot k R))
    (f : Nat) (ev : BodyEvent E R) (hb : h.body k f ev = some h1) (b : Nat) :
    (h1.frames b).promise.parent = (h.frames b).promise.parent := by
  unfold Heap.body at hb
  cases hap : ev.apply k (h.frames f) with
  | none => simp [hap] at hb
  | some fr =>
    simp only [hap, Option.some.injEq] at hb
    subst hb
    by_cases hbf : b = f
    · subst hbf
      simpa using BodyEvent.apply_parent k ev _ _ hap
    · simp [Function.update_noteq hbf]

/-- A sequence of body events leaves every parent link as it was. -/
theorem Heap.run_body_parent {E R : Type} (k : ResultKind)
    (evs : List (Nat × BodyEvent E R)) :
    ∀ (h h2 : Heap E (ValueSlot k R)), h.run_body k evs = some h2 →
      ∀ b : Nat, (h2.frames b).promise.parent = (h.frames b).promise.parent := by
  induction evs with
  | nil =>
    intro h h2 hr b
    simp only [Heap.run_body, Option.some.injEq] at hr
    subst hr
    rfl
  | cons fev rest ih =>
    intro h h2 hr b
    obtain ⟨f, ev⟩ := fev
    simp only [Heap.run_body] at hr
    cases hb : h.body k f ev with
    | none => simp [hb] at hr
    | some h1 =>
      simp only [hb] at hr
      rw [ih h1 h2 hr b, Heap.body_parent k h h1 f ev hb b]

/-- C10: when a frame awaits a child task that is not done, `await_suspend`
writes the awaiting handle into the parent link of the child's promise,
changes nothing else and returns the child's own frame.  After any body events
that follow, if that handle is not null and its frame is not finished, the
final awaiter of the child returns exactly that handle, not the no-op
continuation. -/
theorem parent_resumes_after_child_final_suspend {E R : Type} (k : ResultKind) (t : task)
    (P : coroutine_handle) (h : Heap E (ValueSlot k R)) (hnd : t.done h = false) :
    ∃ (a : Nat) (h1 : Heap E (ValueSlot k R)),
      t.coro = some a
      ∧ t.await_suspend P h = some (.frame a, t, h1)
      ∧ (h1.frames a).promise.parent = P
      ∧ (h1.frames a).promise.result = (h.frames a).promise.result
      ∧ (h1.frames a).done = (h.frames a).done
      ∧ (∀ b, b ≠ a → h1.frames b = h.frames b)
      ∧ h1.trace = h.trace
      ∧ ∀ (evs : List (Nat × BodyEvent E R)) (h2 : Heap E (ValueSlot k R)),
          h1.run_body k evs = some h2 → P.toBool = true → P.done h2 = false →
            final_awaiter.await_suspend a h2 = P := by
  cases hc : t.coro with
  | none => simp [task.done, hc] at hnd
  | some a =>
    refine ⟨a, h.modify_promise a (fun p => { p with parent := P }), rfl, ?_, ?_, ?_, ?_,
      ?_, rfl, ?_⟩
    · simp [task.await_suspend, hc, handle_type.erase]
    · simp [Heap.modify_promise]
    · simp [Heap.modify_promise]
    · simp [Heap.modify_promise]
    · intro b hb
      simp [Heap.modify_promise, Function.update_noteq hb]
    · intro evs h2 hr hP hPd
      have hpar : (h2.frames a).promise.parent = P := by
        rw [Heap.run_body_parent k evs _ h2 hr a]
        simp [Heap.modify_promise]
      simp [final_awaiter.await_suspend, hpar, hP, hPd]

/-- Instance of C10: the frame at 0 awaits the task of the unfinished frame
at 1. -/
theorem parent_resumes_after_child_final_suspend_witness :
    (task.ctor (some 1)).done (blank_heap .value String Int) = false
    ∧ ∃ (a : Nat) (h1 : Heap String (ValueSlot .value Int)),
      (task.ctor (some 1)).coro = some a
      ∧ (task.ctor (some 1)).await_suspend (.frame 0) (blank_heap .value String Int)
          = some (.frame a, task.ctor (some 1), h1)
      ∧ (h1.frames a).promise.parent = .frame 0
      ∧ (h1.frames a).promise.result = ((blank_heap .value String Int).frames a).promise.result
      ∧ (h1.frames a).done = ((blank_heap .value String Int).frames a).done
      ∧ (∀ b, b ≠ a → h1.frames b = (blank_heap .value String Int).frames b)
      ∧ h1.trace = (blank_heap .value String Int).trace
      ∧ ∀ (evs : List (Nat × BodyEvent String Int)) (h2 : Heap String (ValueSlot .value Int)),
          h1.run_body .value evs = some h2 → (coroutine_handle.frame 0).toBool = true →
            (coroutine_handle.frame 0).done h2 = false →
              final_awaiter.await_suspend a h2 = .frame 0 :=
  ⟨rfl, parent_resumes_after_child_final_suspend (E := String) (R := Int) .value
    (task.ctor (some 1)) (.frame 0) (blank_heap .value String Int) rfl⟩

/-! ## Ownership of frames -/

theorem System.init_inv (k : ResultKind) (E R : Type) : (System.init k E R).Inv := by
  refine ⟨fun i _ => rfl, ?_, ?_, ?_, fun a _ => rfl, ?_⟩
  · rintro i a ⟨t, ht, _⟩
    simp [System.init] at ht
  · rintro i j a ⟨t, ht, _⟩
    simp [System.init] at ht
  · intro a ha
    simp [System.init] at ha
  · intro i t ht
    simp [System.init] at ht

/-- An owning task object has an identity below the counter. -/
theorem System.owns_lt {k : ResultKind} {E R : Type} {s : System k E R} (hs : s.Inv)
    {i a : Nat} (ho : s.owns i a) : i < s.next_task := by
  by_contra hlt
  obtain ⟨t, ht, _⟩ := ho
  rw [hs.bound i (Nat.le_of_not_lt hlt)] at ht
  cases ht

/-- A live task object has an identity below the counter. -/
theorem System.alive_lt {k : ResultKind} {E R : Type} {s : System k E R} (hs : s.Inv)
    {i : Nat} {t : task} (ht : s.tasks i = some t) : i < s.next_task := by
  by_contra hlt
  rw [hs.bound i (Nat.le_of_not_lt hlt)] at ht
  cases ht

/-- Ownership after a coroutine call: the new task owns the new frame. -/
theorem System.call_owns {k : ResultKind} {E R : Type} {s : System k E R} (hs : s.Inv)
    (loop i a : Nat) :
    (s.call loop).owns i a ↔ (i = s.next_task ∧ a = s.next_frame) ∨ s.owns i a := by
  unfold System.owns System.call
  by_cases hi : i = s.next_task
  · subst hi
    simp [hs.bound, promise.get_return_object, task.ctor, eq_comm]
  · simp [Function.update_noteq hi, hi]

/-- A coroutine call keeps the invariant. -/
theorem System.call_inv {k : ResultKind} {E R : Type} {s : System k E R} (hs : s.Inv)
    (loop : Nat) : (s.call loop).Inv := by
  have hdc : ∀ a, (s.call loop).destroy_count a = s.destroy_count a := fun a => rfl
  have hnf : (s.call loop).next_frame = s.next_frame + 1 := rfl
  have hnt : (s.call loop).next_task = s.next_task + 1 := rfl
  refine ⟨?_, ?_, ?_, ?_, ?_, ?_⟩
  · intro i hi
    rw [hnt] at hi
    have hne : i ≠ s.next_task := by omega
    simp only [System.call, Function.update_noteq hne]
    exact hs.bound i (by omega)
  · intro i a ho
    rw [hnf, hdc]
    rcases (System.call_owns hs loop i a).1 ho with ⟨_, rfl⟩ | ho
    · exact ⟨by omega, hs.fresh _ le_rfl⟩
    · exact ⟨by have := (hs.live i a ho).1; omega, (hs.live i a ho).2⟩
  · intro i j a hoi hoj
    rcases (System.call_owns hs loop i a).1 hoi with ⟨rfl, rfl⟩ | hoi
    · rcases (System.call_owns hs loop j _).1 hoj with ⟨rfl, _⟩ | hoj
      · rfl
      · have := (hs.live j _ hoj).1
        omega
    · rcases (System.call_owns hs loop j a).1 hoj with ⟨rfl, rfl⟩ | hoj
      · have := (hs.live i _ hoi).1
        omega
      · exact hs.unique i j a hoi hoj
  · intro a ha
    rw [hnf] at ha
    rw [hdc]
    by_cases hlt : a < s.next_frame
    · rcases hs.accounted a hlt with h1 | ⟨i, ho⟩
      · exact Or.inl h1
      · exact Or.inr ⟨i, (System.call_owns hs loop i a).2 (Or.inr ho)⟩
    · have : a = s.next_frame := by omega
      exact Or.inr ⟨s.next_task, (System.call_owns hs loop _ a).2 (Or.inl ⟨rfl, this⟩)⟩
  · intro a ha
    rw [hnf] at ha
    rw [hdc]
    exact hs.fresh a (by omega)
  · intro i t ht
    by_cases hi : i = s.next_task
    · subst hi
      simp [System.call, promise.get_return_object, task.ctor] at ht
      subst ht
      rfl
    · simp only [System.call, Function.update_noteq hi] at ht
      exact hs.started i t ht

/-- The system after a move construction from a live task object. -/
theorem System.move_ctor_eq {k : ResultKind} {E R : Type} (s : System k E R)
    (src : Nat) (other : task) (ht : s.tasks src = some other) :
    s.move_ctor src = some { s with
      tasks := Function.update (Function.update s.tasks src (some ⟨none, other.was_started⟩))
        s.next_task (some ⟨other.coro, true⟩),
      next_task := s.next_task + 1 } := by
  simp [System.move_ctor, ht, task.move_ctor]

/-- Ownership after a move construction: it passes from the source to the
new task object. -/
theorem System.move_ctor_owns {k : ResultKind} {E R : Type} {s s1 : System k E R}
    (hs : s.Inv) (src : Nat) (hstep : s.move_ctor src = some s1) (i a : Nat) :
    s1.owns i a ↔ (i = s.next_task ∧ s.owns src a) ∨ (i ≠ src ∧ s.owns i a) := by
  cases ht : s.tasks src with
  | none => simp [System.move_ctor, ht] at hstep
  | some other =>
    rw [System.move_ctor_eq s src other ht, Option.some.injEq] at hstep
    subst hstep
    have hsrc : src ≠ s.next_task := Nat.ne_of_lt (System.alive_lt hs ht)
    unfold System.owns
    by_cases hi : i = s.next_task
    · subst hi
      simp [ht, hs.bound, hsrc.symm]
    · by_cases hi2 : i = src
      · subst hi2
        simp [Function.update_noteq hi, hi]
      · simp [Function.update_noteq hi, Function.update_noteq hi2, hi, hi2]

/-- Move construction keeps the invariant. -/
theorem System.move_ctor_inv {k : ResultKind} {E R : Type} {s s1 : System k E R}
    (hs : s.Inv) (src : Nat) (hstep : s.move_ctor src = some s1) : s1.Inv := by
  have hown := System.move_ctor_owns hs src hstep
  cases ht : s.tasks src with
  | none => simp [System.move_ctor, ht] at hstep
  | some other =>
    have hsrc : src ≠ s.next_task := Nat.ne_of_lt (System.alive_lt hs ht)
    rw [System.move_ctor_eq s src other ht, Option.some.injEq] at hstep
    have hdc : ∀ a, s1.destroy_count a = s.destroy_count a := by
      intro a
      subst hstep
      rfl
    have hnf : s1.next_frame = s.next_frame := by
      subst hstep
      rfl
    have hnt : s1.next_task = s.next_task + 1 := by
      subst hstep
      rfl
    refine ⟨?_, ?_, ?_, ?_, ?_, ?_⟩
    · intro i hi
      rw [hnt] at hi
      have hne : i ≠ s.next_task := by omega
      have hne2 : i ≠ src := by
        have := System.alive_lt hs ht
        omega
      subst hstep
      simp only [Function.update_noteq hne, Function.update_noteq hne2]
      exact hs.bound i (by omega)
    · intro i a ho
      rw [hnf, hdc]
      rcases (hown i a).1 ho with ⟨_, ho⟩ | ⟨_, ho⟩
      · exact hs.live src a ho
      · exact hs.live i a ho
    · intro i j a hoi hoj
      rcases (hown i a).1 hoi with ⟨hi, hi'⟩ | ⟨hi, hi'⟩
      · rcases (hown j a).1 hoj with ⟨hj, _⟩ | ⟨hj, hj'⟩
        · rw [hi, hj]
        · exact absurd (hs.unique j src a hj' hi') hj
      · rcases (hown j a).1 hoj with ⟨_, hj'⟩ | ⟨_, hj'⟩
        · exact absurd (hs.unique i src a hi' hj') hi
        · exact hs.unique i j a hi' hj'
    · intro a ha
      rw [hnf] at ha
      rw [hdc]
      rcases hs.accounted a ha with h1 | ⟨i, ho⟩
      · exact Or.inl h1
      · by_cases hi : i = src
        · subst hi
          exact Or.inr ⟨s.next_task, (hown _ a).2 (Or.inl ⟨rfl, ho⟩)⟩
        · exact Or.inr ⟨i, (hown i a).2 (Or.inr ⟨hi, ho⟩)⟩
    · intro a ha
      rw [hnf] at ha
      rw [hdc]
      exact hs.fresh a ha
    · intro i t hti
      subst hstep
      by_cases hi : i = s.next_task
      · subst hi
        simp at hti
        subst hti
        rfl
      · by_cases hi2 : i = src
        · subst hi2
          simp [Function.update_noteq hi] at hti
          subst hti
          exact hs.started i other ht
        · simp only [Function.update_noteq hi, Function.update_noteq hi2] at hti
          exact hs.started i t hti

/-- The destructor leaves the contents of all frames as they are. -/
theorem task.dtor_frames {E V : Type} (t : task) (h : Heap E V) :
    (t.dtor h).frames = h.frames := by
  cases hc : t.coro <;> simp [task.dtor, hc, handle_type.destroy]

/-- The destructor issues one `destroy()` on the owned frame, if any. -/
theorem task.dtor_trace {E V : Type} (t : task) (h : Heap E V) :
    (t.dtor h).trace = h.trace ++ (match t.coro with
      | some d => [Event.destroy d]
      | none => []) := by
  cases hc : t.coro <;> simp [task.dtor, hc, handle_type.destroy]

/-- The destructor adds one `destroy()` call for the owned frame only. -/
theorem task.dtor_count {E V : Type} (t : task) (h : Heap E V) (a : Nat) :
    (t.dtor h).trace.count (Event.destroy a)
      = h.trace.count (Event.destroy a) + (if t.coro = some a then 1 else 0) := by
  rw [task.dtor_trace]
  cases hc : t.coro with
  | none => simp
  | some d =>
    simp only [List.count_append, List.count_singleton', Event.destroy.injEq,
      Option.some.injEq]

/-- The system after a move assignment between two distinct live objects. -/
theorem System.move_assign_eq {k : ResultKind} {E R : Type} (s : System k E R)
    (dst src : Nat) (self other : task) (hne : src ≠ dst)
    (hd : s.tasks dst = some self) (hsr : s.tasks src = some other) :
    s.move_assign dst src = some { s with
      heap := self.dtor s.heap,
      tasks := Function.update (Function.update s.tasks dst (some ⟨other.coro, self.was_started⟩))
        src (some ⟨none, other.was_started⟩) } := by
  simp [System.move_assign, hd, hsr, hne, task.dtor]

/-- Move assignment of a task object to itself changes nothing. -/
theorem System.move_assign_same {k : ResultKind} {E R : Type} (s s1 : System k E R)
    (obj : Nat) (hstep : s.move_assign obj obj = some s1) : s1 = s := by
  unfold System.move_assign at hstep
  cases ht : s.tasks obj with
  | none => simp [ht] at hstep
  | some t =>
    simp [ht] at hstep
    exact hstep.symm

/-- Move assignment keeps the invariant. -/
theorem System.move_assign_inv {k : ResultKind} {E R : Type} {s s1 : System k E R}
    (hs : s.Inv) (dst src : Nat) (hstep : s.move_assign dst src = some s1) : s1.Inv := by
  by_cases hne : src = dst
  · subst hne
    rw [System.move_assign_same s s1 src hstep]
    exact hs
  cases hd : s.tasks dst with
  | none => simp [System.move_assign, hd] at hstep
  | some self =>
    cases hsr : s.tasks src with
    | none => simp [System.move_assign, hd, hsr] at hstep
    | some other =>
      rw [System.move_assign_eq s dst src self other hne hd hsr, Option.some.injEq] at hstep
      have hdc : ∀ a, s1.destroy_count a
          = s.destroy_count a + (if self.coro = some a then 1 else 0) := by
        intro a
        subst hstep
        exact task.dtor_count self s.heap a
      have hnf : s1.next_frame = s.next_frame := by
        subst hstep
        rfl
      have hnt : s1.next_task = s.next_task := by
        subst hstep
        rfl
      have hown : ∀ i a, s1.owns i a ↔
          (i = dst ∧ s.owns src a) ∨ (i ≠ dst ∧ i ≠ src ∧ s.owns i a) := by
        intro i a
        subst hstep
        unfold System.owns
        by_cases hi : i = src
        · subst hi
          simp [hne]
        · by_cases hi2 : i = dst
          · subst hi2
            simp [Function.update_noteq hi, hsr]
          · simp [Function.update_noteq hi, Function.update_noteq hi2, hi, hi2]
      have hself : ∀ a, self.coro = some a → s.owns dst a := fun a ha => ⟨self, hd, ha⟩
      refine ⟨?_, ?_, ?_, ?_, ?_, ?_⟩
      · intro i hi
        rw [hnt] at hi
        have h1 := System.alive_lt hs hd
        have h2 := System.alive_lt hs hsr
        have hne1 : i ≠ dst := by omega
        have hne2 : i ≠ src := by omega
        subst hstep
        simp only [Function.update_noteq hne1, Function.update_noteq hne2]
        exact hs.bound i hi
      · intro i a ho
        rw [hnf, hdc]
        rcases (hown i a).1 ho with ⟨_, ho'⟩ | ⟨hi, _, ho'⟩
        · refine ⟨(hs.live src a ho').1, ?_⟩
          have hn : self.coro ≠ some a := fun hc =>
            hne (hs.unique src dst a ho' (hself a hc))
          simp [hn, (hs.live src a ho').2]
        · refine ⟨(hs.live i a ho').1, ?_⟩
          have hn : self.coro ≠ some a := fun hc =>
            hi (hs.unique i dst a ho' (hself a hc))
          simp [hn, (hs.live i a ho').2]
      · intro i j a hoi hoj
        rcases (hown i a).1 hoi with ⟨hi, hi'⟩ | ⟨_, hi, hi'⟩
        · rcases (hown j a).1 hoj with ⟨hj, _⟩ | ⟨_, hj, hj'⟩
          · rw [hi, hj]
          · exact absurd (hs.unique j src a hj' hi') hj
        · rcases (hown j a).1 hoj with ⟨_, hj'⟩ | ⟨_, _, hj'⟩
          · exact absurd (hs.unique i src a hi' hj') hi
          · exact hs.unique i j a hi' hj'
      · intro a ha
        rw [hnf] at ha
        rw [hdc]
        rcases hs.accounted a ha with h1 | ⟨i, ho⟩
        · have hn : self.coro ≠ some a := by
            intro hc
            have := (hs.live dst a (hself a hc)).2
            omega
          exact Or.inl (by simp [hn, h1])
        · by_cases hi : i = dst
          · subst hi
            obtain ⟨t, ht, hc⟩ := ho
            rw [hd, Option.some.injEq] at ht
            subst ht
            have := (hs.live i a ⟨self, hd, hc⟩).2
            exact Or.inl (by simp [hc, this])
          · by_cases hi2 : i = src
            · subst hi2
              exact Or.inr ⟨dst, (hown dst a).2 (Or.inl ⟨rfl, ho⟩)⟩
            · exact Or.inr ⟨i, (hown i a).2 (Or.inr ⟨hi, hi2, ho⟩)⟩
      · intro a ha
        rw [hnf] at ha
        rw [hdc]
        have hn : self.coro ≠ some a := by
          intro hc
          have := (hs.live dst a (hself a hc)).1
          omega
        simp [hn, hs.fresh a ha]
      · intro i t hti
        subst hstep
        by_cases hi : i = src
        · subst hi
          simp at hti
          subst hti
          exact hs.started i other hsr
        · by_cases hi2 : i = dst
          · subst hi2
            simp [Function.update_noteq hi] at hti
            subst hti
            exact hs.started i self hd
          · simp only [Function.update_noteq hi, Function.update_noteq hi2] at hti
            exact hs.started i t hti

/-- The system after the destruction of a live task object. -/
theorem System.dtor_eq {k : ResultKind} {E R : Type} (s : System k E R)
    (obj : Nat) (t : task) (ht : s.tasks obj = some t) :
    s.dtor obj = some { s with
      heap := t.dtor s.heap, tasks := Function.update s.tasks obj none } := by
  simp [System.dtor, ht]

/-- Destruction of a task object keeps the invariant. -/
theorem System.dtor_inv {k : ResultKind} {E R : Type} {s s1 : System k E R}
    (hs : s.Inv) (obj : Nat) (hstep : s.dtor obj = some s1) : s1.Inv := by
  cases ht : s.tasks obj with
  | none => simp [System.dtor, ht] at hstep
  | some t =>
    rw [System.dtor_eq s obj t ht, Option.some.injEq] at hstep
    have hdc : ∀ a, s1.destroy_count a
        = s.destroy_count a + (if t.coro = some a then 1 else 0) := by
      intro a
      subst hstep
      exact task.dtor_count t s.heap a
    have hnf : s1.next_frame = s.next_frame := by
      subst hstep
      rfl
    have hnt : s1.next_task = s.next_task := by
      subst hstep
      rfl
    have hown : ∀ i a, s1.owns i a ↔ (i ≠ obj ∧ s.owns i a) := by
      intro i a
      subst hstep
      unfold System.owns
      by_cases hi : i = obj
      · subst hi
        simp
      · simp [Function.update_noteq hi, hi]
    have hself : ∀ a, t.coro = some a → s.owns obj a := fun a ha => ⟨t, ht, ha⟩
    refine ⟨?_, ?_, ?_, ?_, ?_, ?_⟩
    · intro i hi
      rw [hnt] at hi
      subst hstep
      by_cases hio : i = obj
      · subst hio
        simp
      · simp only [Function.update_noteq hio]
        exact hs.bound i hi
    · intro i a ho
      rw [hnf, hdc]
      obtain ⟨hi, ho'⟩ := (hown i a).1 ho
      refine ⟨(hs.live i a ho').1, ?_⟩
      have hn : t.coro ≠ some a := fun hc => hi (hs.unique i obj a ho' (hself a hc))
      simp [hn, (hs.live i a ho').2]
    · intro i j a hoi hoj
      exact hs.unique i j a ((hown i a).1 hoi).2 ((hown j a).1 hoj).2
    · intro a ha
      rw [hnf] at ha
      rw [hdc]
      rcases hs.accounted a ha with h1 | ⟨i, ho⟩
      · have hn : t.coro ≠ some a := by
          intro hc
          have := (hs.live obj a (hself a hc)).2
          omega
        exact Or.inl (by simp [hn, h1])
      · by_cases hi : i = obj
        · subst hi
          obtain ⟨u, hu, hc⟩ := ho
          rw [ht, Option.some.injEq] at hu
          subst hu
          have := (hs.live i a ⟨t, ht, hc⟩).2
          exact Or.inl (by simp [hc, this])
        · exact Or.inr ⟨i, (hown i a).2 ⟨hi, ho⟩⟩
    · intro a ha
      rw [hnf] at ha
      rw [hdc]
      have hn : t.coro ≠ some a := by
        intro hc
        have := (hs.live obj a (hself a hc)).1
        omega
      simp [hn, hs.fresh a ha]
    · intro i u hu
      subst hstep
      by_cases hi : i = obj
      · subst hi
        simp at hu
      · simp only [Function.update_noteq hi] at hu
        exact hs.started i u hu

/-- An operation that keeps the counters, the number of `destroy()` calls on
each frame and the handle of each task object keeps the invariant, provided
the task objects it writes are started. -/
theorem System.Inv.of_same {k : ResultKind} {E R : Type} {s s1 : System k E R} (hs : s.Inv)
    (hnf : s1.next_frame = s.next_frame) (hnt : s1.next_task = s.next_task)
    (hdc : ∀ a, s1.destroy_count a = s.destroy_count a)
    (hto : ∀ i t1, s1.tasks i = some t1 →
      ∃ t, s.tasks i = some t ∧ t.coro = t1.coro ∧ t1.was_started = true)
    (hfrom : ∀ i t, s.tasks i = some t → ∃ t1, s1.tasks i = some t1 ∧ t1.coro = t.coro) :
    s1.Inv := by
  have hown : ∀ i a, s1.owns i a ↔ s.owns i a := by
    intro i a
    constructor
    · rintro ⟨t1, ht1, hc⟩
      obtain ⟨t, ht, htc, _⟩ := hto i t1 ht1
      exact ⟨t, ht, htc.trans hc⟩
    · rintro ⟨t, ht, hc⟩
      obtain ⟨t1, ht1, htc⟩ := hfrom i t ht
      exact ⟨t1, ht1, htc.trans hc⟩
  refine ⟨?_, ?_, ?_, ?_, ?_, ?_⟩
  · intro i hi
    rw [hnt] at hi
    cases h1 : s1.tasks i with
    | none => rfl
    | some t1 =>
      obtain ⟨t, ht, _⟩ := hto i t1 h1
      rw [hs.bound i hi] at ht
      cases ht
  · intro i a ho
    rw [hnf, hdc]
    exact hs.live i a ((hown i a).1 ho)
  · intro i j a hoi hoj
    exact hs.unique i j a ((hown i a).1 hoi) ((hown j a).1 hoj)
  · intro a ha
    rw [hnf] at ha
    rw [hdc]
    rcases hs.accounted a ha with h1 | ⟨i, ho⟩
    · exact Or.inl h1
    · exact Or.inr ⟨i, (hown i a).2 ho⟩
  · intro a ha
    rw [hnf] at ha
    rw [hdc]
    exact hs.fresh a ha
  · intro i t1 ht1
    obtain ⟨_, _, _, hst⟩ := hto i t1 ht1
    exact hst

/-- Writing back, at a live identity, a started task with the same handle, on
a heap with the same `destroy()` calls, keeps the invariant. -/
theorem System.Inv.of_update {k : ResultKind} {E R : Type} {s : System k E R} (hs : s.Inv)
    (obj : Nat) (t t1 : task) (h1 : Heap E (ValueSlot k R)) (ht : s.tasks obj = some t)
    (hc : t1.coro = t.coro) (hst : t1.was_started = true)
    (hdc : ∀ a, h1.trace.count (Event.destroy a) = s.heap.trace.count (Event.destroy a)) :
    System.Inv { s with heap := h1, tasks := Function.update s.tasks obj (some t1) } := by
  refine System.Inv.of_same hs rfl rfl hdc ?_ ?_
  · intro i u hu
    by_cases hi : i = obj
    · subst hi
      simp at hu
      subst hu
      exact ⟨t, ht, hc.symm, hst⟩
    · simp only [Function.update_noteq hi] at hu
      exact ⟨u, hu, rfl, hs.started i u hu⟩
  · intro i u hu
    by_cases hi : i = obj
    · subst hi
      rw [ht, Option.some.injEq] at hu
      subst hu
      exact ⟨t1, by simp, hc⟩
    · exact ⟨u, by simp [Function.update_noteq hi, hu], rfl⟩

/-- Resuming a frame adds no `destroy()` call. -/
theorem handle_type.resume_count {E V : Type} (c : handle_type) (h : Heap E V) (a : Nat) :
    (handle_type.resume c h).trace.count (Event.destroy a)
      = h.trace.count (Event.destroy a) := by
  cases c <;> simp [handle_type.resume, List.count_append, List.count_singleton']

/-- A body event leaves the trace as it is. -/
theorem Heap.body_trace {E R : Type} (k : ResultKind) (h h1 : Heap E (ValueSlot k R))
    (f : Nat) (ev : BodyEvent E R) (hb : h.body k f ev = some h1) : h1.trace = h.trace := by
  unfold Heap.body at hb
  cases hap : ev.apply k (h.frames f) with
  | none => simp [hap] at hb
  | some fr =>
    simp only [hap, Option.some.injEq] at hb
    subst hb
    rfl

/-- Every operation keeps the invariant. -/
theorem System.step_inv {k : ResultKind} {E R : Type} {s s1 : System k E R} (hs : s.Inv)
    (op : Op E R) (hstep : s.step op = some s1) : s1.Inv := by
  cases op with
  | call loop =>
    simp only [System.step, Option.some.injEq] at hstep
    subst hstep
    exact System.call_inv hs loop
  | move_ctor src => exact System.move_ctor_inv hs src hstep
  | move_assign dst src => exact System.move_assign_inv hs dst src hstep
  | dtor obj => exact System.dtor_inv hs obj hstep
  | start obj =>
    simp only [System.step] at hstep
    cases ht : s.tasks obj with
    | none => simp [ht] at hstep
    | some t =>
      simp only [ht] at hstep
      by_cases hd : t.done s.heap = true
      · simp [task.start, hd] at hstep
      · by_cases hw : t.was_started = true
        · simp [task.start, hd, hw] at hstep
        · simp [task.start, hd, hw] at hstep
          subst hstep
          exact System.Inv.of_update hs obj t _ _ ht rfl rfl
            (handle_type.resume_count t.coro s.heap)
  | resume obj =>
    simp only [System.step] at hstep
    cases ht : s.tasks obj with
    | none => simp [ht] at hstep
    | some t =>
      simp only [ht] at hstep
      by_cases hw : t.was_started = true
      · by_cases hd : t.done s.heap = true
        · simp [task.resume, hd, hw] at hstep
        · simp [task.resume, hd, hw] at hstep
          subst hstep
          exact System.Inv.of_update hs obj t _ _ ht rfl hw
            (handle_type.resume_count t.coro s.heap)
      · simp [task.resume, hw] at hstep
  | await_suspend obj awaiting_coro =>
    simp only [System.step] at hstep
    cases ht : s.tasks obj with
    | none => simp [ht] at hstep
    | some t =>
      simp only [ht] at hstep
      cases hc : t.coro with
      | none => simp [task.await_suspend, hc] at hstep
      | some a =>
        simp [task.await_suspend, hc] at hstep
        subst hstep
        exact System.Inv.of_update hs obj t _ _ ht rfl (hs.started obj t ht) (fun _ => rfl)
  | body f ev =>
    simp only [System.step] at hstep
    split at hstep
    · cases hb : s.heap.body k f ev with
      | none => simp [hb] at hstep
      | some h1 =>
        simp only [hb, Option.some.injEq] at hstep
        subst hstep
        refine System.Inv.of_same hs rfl rfl ?_ ?_ ?_
        · intro a
          simp only [System.destroy_count, Heap.body_trace k s.heap h1 f ev hb]
        · intro i t ht
          exact ⟨t, ht, rfl, hs.started i t ht⟩
        · intro i t ht
          exact ⟨t, ht, rfl⟩
    · cases hstep

/-- Every sequence of operations keeps the invariant. -/
theorem System.run_inv {k : ResultKind} {E R : Type} (ops : List (Op E R)) :
    ∀ (s s1 : System k E R), s.Inv → s.run ops = some s1 → s1.Inv := by
  induction ops with
  | nil =>
    intro s s1 hs hr
    simp only [System.run, Option.some.injEq] at hr
    subst hr
    exact hs
  | cons op rest ih =>
    intro s s1 hs hr
    simp only [System.run] at hr
    cases hst : s.step op with
    | none => simp [hst] at hr
    | some s2 =>
      simp only [hst] at hr
      exact ih s2 s1 (System.step_inv hs op hst) hr

/-- C8: in every system reached from the empty program by calls of coroutine
functions, moves, destructions and the other operations, (1) move construction
leaves the source without a frame and gives the new task the source's frame,
destroying nothing; (2) move assignment from a distinct task first destroys
the frame the destination owned, if any, then leaves the source without a
frame and the destination with the source's frame; (3) destruction of a task
destroys its frame only if it owns one; (4) no frame is owned by two task
objects, an owned frame has not been destroyed, no frame is destroyed more
than once, only allocated frames are destroyed, and once no task object is
alive every allocated frame has been destroyed exactly once. -/
theorem frame_ownership_unique_and_released_once {k : ResultKind} {E R : Type}
    (ops : List (Op E R)) (s : System k E R)
    (hrun : (System.init k E R).run ops = some s) :
    (∀ src other, s.tasks src = some other →
      ∃ s1 u n, s.step (.move_ctor src) = some s1 ∧ s1.heap = s.heap
        ∧ s1.tasks src = some u ∧ u.coro = none
        ∧ s1.tasks s.next_task = some n ∧ n.coro = other.coro)
    ∧ (∀ dst src self other, dst ≠ src → s.tasks dst = some self → s.tasks src = some other →
      ∃ s1 u n, s.step (.move_assign dst src) = some s1
        ∧ s1.heap.trace = s.heap.trace ++ (match self.coro with
            | some d => [Event.destroy d]
            | none => [])
        ∧ s1.tasks src = some u ∧ u.coro = none
        ∧ s1.tasks dst = some n ∧ n.coro = other.coro)
    ∧ (∀ obj t, s.tasks obj = some t →
      ∃ s1, s.step (.dtor obj) = some s1 ∧ s1.tasks obj = none
        ∧ s1.heap.trace = s.heap.trace ++ (match t.coro with
            | some d => [Event.destroy d]
            | none => []))
    ∧ (∀ i j a, s.owns i a → s.owns j a → i = j)
    ∧ (∀ i a, s.owns i a → s.destroy_count a = 0)
    ∧ (∀ a, s.destroy_count a ≤ 1)
    ∧ (∀ a, s.next_frame ≤ a → s.destroy_count a = 0)
    ∧ ((∀ i, s.tasks i = none) → ∀ a, a < s.next_frame → s.destroy_count a = 1) := by
  have hs : s.Inv := System.run_inv ops _ s (System.init_inv k E R) hrun
  refine ⟨?_, ?_, ?_, hs.unique, fun i a ho => (hs.live i a ho).2, ?_, hs.fresh, ?_⟩
  · intro src other ht
    have hsrc : src ≠ s.next_task := Nat.ne_of_lt (System.alive_lt hs ht)
    refine ⟨_, ⟨none, other.was_started⟩, ⟨other.coro, true⟩,
      System.move_ctor_eq s src other ht, rfl, ?_, rfl, ?_, rfl⟩
    · simp [Function.update_noteq hsrc]
    · simp
  · intro dst src self other hne hd hsr
    refine ⟨_, ⟨none, other.was_started⟩, ⟨other.coro, self.was_started⟩,
      System.move_assign_eq s dst src self other (Ne.symm hne) hd hsr,
      task.dtor_trace self s.heap, ?_, rfl, ?_, rfl⟩
    · simp
    · simp [Function.update_noteq hne]
  · intro obj t ht
    refine ⟨_, System.dtor_eq s obj t ht, ?_, task.dtor_trace t s.heap⟩
    simp
  · intro a
    by_cases ha : a < s.next_frame
    · rcases hs.accounted a ha with h1 | ⟨i, ho⟩
      · omega
      · have := (hs.live i a ho).2
        omega
    · have := hs.fresh a (Nat.le_of_not_lt ha)
      omega
  · intro hnone a ha
    rcases hs.accounted a ha with h1 | ⟨i, t, ht, _⟩
    · exact h1
    · rw [hnone i] at ht
      cases ht

/-- Instance of C8: after `demo_ops` no task object is alive and both frames
have been destroyed exactly once. -/
theorem frame_ownership_unique_and_released_once_witness :
    (System.init .value String Int).run demo_ops = some demo_final
    ∧ (∀ i, demo_final.tasks i = none)
    ∧ demo_final.heap.trace = [Event.destroy 1, Event.destroy 0]
    ∧ (∀ a, a < demo_final.next_frame → demo_final.destroy_count a = 1) := by
  have hrun : (System.init .value String Int).run demo_ops = some demo_final := rfl
  have hnone : ∀ i, demo_final.tasks i = none := by
    intro i
    have hshape : demo_final.tasks = Function.update (Function.update (Function.update
        (Function.update (Function.update (Function.update (Function.update (Function.update
          (Function.update (fun _ => none) 0 (some ⟨some 0, true⟩))
          1 (some ⟨some 1, true⟩)) 0 (some ⟨none, true⟩)) 2 (some ⟨some 0, true⟩))
          1 (some ⟨some 0, true⟩)) 2 (some ⟨none, true⟩)) 0 none) 1 none) 2 none := rfl
    rw [hshape]
    simp only [Function.update_apply]
    split_ifs <;> rfl
  exact ⟨hrun, hnone, rfl,
    (frame_ownership_unique_and_released_once demo_ops demo_final hrun).2.2.2.2.2.2.2 hnone⟩

/-! ## Observations on a moved-to task -/

theorem task.done_congr {E V : Type} (t u : task) (h g : Heap E V)
    (hc : u.coro = t.coro) (hf : g.frames = h.frames) : u.done g = t.done h := by
  unfold task.done handle_type.done
  rw [hc]
  cases t.coro <;> simp [handle_type.erase, coroutine_handle.done, hf]

/-- The outcome of `await_resume()` depends only on the handle and the frame
contents. -/
theorem task.await_resume_congr {E R : Type} (k : ResultKind) (t u : task)
    (h g : Heap E (ValueSlot k R)) (hc : u.coro = t.coro) (hf : g.frames = h.frames) :
    (task.await_resume k u g).1 = (task.await_resume k t h).1 := by
  cases k <;> simp only [task.await_resume, hc, hf] <;> cases t.coro <;> simp only [] <;>
    split <;> rfl

/-- The outcome of `result()` depends only on the handle and the frame
contents. -/
theorem task.result_congr {E R : Type} (k : ResultKind) (t u : task)
    (h g : Heap E (ValueSlot k R)) (hc : u.coro = t.coro) (hf : g.frames = h.frames) :
    (task.result k u g).1 = (task.result k t h).1 := by
  cases k
  · rfl
  · exact task.await_resume_congr .ref t u h g hc hf
  · exact task.await_resume_congr .value t u h g hc hf

/-- C9: in every system reached from the empty program, the task made by move
construction from a live task `t`, and the destination of a move assignment
from `t` onto a distinct live task, owns the frame `t` owned, reports the same
`started()`, `done()` and `await_ready()` as `t` did before the move, and a
result access on it returns or throws what the access on `t` would have; the
frame contents are untouched and the frame taken over has not been
destroyed. -/
theorem moved_to_task_behaves_like_source {k : ResultKind} {E R : Type}
    (ops : List (Op E R)) (s : System k E R)
    (hrun : (System.init k E R).run ops = some s)
    (src : Nat) (t : task) (ht : s.tasks src = some t) :
    (∃ s1 n, s.step (.move_ctor src) = some s1 ∧ s1.tasks s.next_task = some n
      ∧ n.coro = t.coro
      ∧ n.started = t.started
      ∧ n.done s1.heap = t.done s.heap
      ∧ n.await_ready s1.heap = t.await_ready s.heap
      ∧ (task.await_resume k n s1.heap).1 = (task.await_resume k t s.heap).1
      ∧ (task.result k n s1.heap).1 = (task.result k t s.heap).1
      ∧ s1.heap.frames = s.heap.frames
      ∧ (∀ a, t.coro = some a → s1.destroy_count a = 0))
    ∧ (∀ dst self, dst ≠ src → s.tasks dst = some self →
      ∃ s1 n, s.step (.move_assign dst src) = some s1 ∧ s1.tasks dst = some n
        ∧ n.coro = t.coro
        ∧ n.started = t.started
        ∧ n.done s1.heap = t.done s.heap
        ∧ n.await_ready s1.heap = t.await_ready s.heap
        ∧ (task.await_resume k n s1.heap).1 = (task.await_resume k t s.heap).1
        ∧ (task.result k n s1.heap).1 = (task.result k t s.heap).1
        ∧ s1.heap.frames = s.heap.frames
        ∧ (∀ a, t.coro = some a → s1.destroy_count a = 0)) := by
  have hs : s.Inv := System.run_inv ops _ s (System.init_inv k E R) hrun
  have hst : t.was_started = true := hs.started src t ht
  constructor
  · have hstep := System.move_ctor_eq s src t ht
    have hinv := System.move_ctor_inv hs src hstep
    have hn : ∀ u : task, u.coro = t.coro → ∀ g : Heap E (ValueSlot k R),
        g.frames = s.heap.frames → u.await_ready g = t.await_ready s.heap :=
      fun u hc g hf => task.done_congr t u s.heap g hc hf
    refine ⟨_, ⟨t.coro, true⟩, hstep, by simp, rfl, ?_, task.done_congr t _ _ _ rfl rfl,
      hn _ rfl _ rfl, task.await_resume_congr k t _ _ _ rfl rfl,
      task.result_congr k t _ _ _ rfl rfl, rfl, ?_⟩
    · simp [task.started, hst]
    · intro a ha
      exact (hinv.live s.next_task a ⟨⟨t.coro, true⟩, by simp, ha⟩).2
  · intro dst self hne hd
    have hstep := System.move_assign_eq s dst src self t (Ne.symm hne) hd ht
    have hinv := System.move_assign_inv hs dst src hstep
    have hsd : self.was_started = true := hs.started dst self hd
    have hf : (self.dtor s.heap).frames = s.heap.frames := task.dtor_frames self s.heap
    have hn : ∀ u : task, u.coro = t.coro → ∀ g : Heap E (ValueSlot k R),
        g.frames = s.heap.frames → u.await_ready g = t.await_ready s.heap :=
      fun u hc g hf => task.done_congr t u s.heap g hc hf
    refine ⟨_, ⟨t.coro, self.was_started⟩, hstep, by simp [Function.update_noteq hne], rfl,
      ?_, task.done_congr t _ _ _ rfl hf, hn _ rfl _ hf,
      task.await_resume_congr k t _ _ _ rfl hf, task.result_congr k t _ _ _ rfl hf, hf, ?_⟩
    · simp [task.started, hst, hsd]
    · intro a ha
      exact (hinv.live dst a
        ⟨⟨t.coro, self.was_started⟩, by simp [Function.update_noteq hne], ha⟩).2

/-- Instance of C9: the task of a freshly called coroutine is moved from. -/
theorem moved_to_task_behaves_like_source_witness :
    (System.init .value String Int).run [.call 0] = some demo_called
    ∧ demo_called.tasks 0 = some (task.ctor (some 0))
    ∧ ∃ s1 n, demo_called.step (.move_ctor 0) = some s1 ∧ s1.tasks 1 = some n
      ∧ n.coro = some 0
      ∧ n.started = (task.ctor (some 0)).started
      ∧ n.done s1.heap = (task.ctor (some 0)).done demo_called.heap
      ∧ (task.await_resume .value n s1.heap).1
          = (task.await_resume .value (task.ctor (some 0)) demo_called.heap).1 := by
  obtain ⟨s1, n, h1, h2, h3, h4, h5, _, h7, _⟩ :=
    (moved_to_task_behaves_like_source [.call 0] demo_called rfl 0 (task.ctor (some 0)) rfl).1
  exact ⟨rfl, rfl, s1, n, h1, h2, h3, h4, h5, h7⟩

/-! ## The final awaiter -/

/-- C11: the final awaiter is never ready, and its `await_suspend` returns the
parent recorded in the frame's promise exactly when that handle is not null
and its frame is not finished; otherwise (a null parent, or a parent whose
frame is finished) it returns the no-op continuation.  The parent link of a
newly constructed promise is null, and it stays null through the body events
of a frame that is never awaited, so such a frame ends in the no-op
continuation. -/
theorem final_awaiter_returns_live_parent_or_noop {E R : Type} (k : ResultKind) (c : Nat)
    (h : Heap E (ValueSlot k R)) :
    final_awaiter.await_ready = false
    ∧ (final_awaiter.await_suspend c h = (h.frames c).promise.parent
        ↔ ((h.frames c).promise.parent.toBool = true
            ∧ (h.frames c).promise.parent.done h = false))
    ∧ (¬ ((h.frames c).promise.parent.toBool = true
            ∧ (h.frames c).promise.parent.done h = false) →
        final_awaiter.await_suspend c h = .noop)
    ∧ ((h.frames c).promise.parent = .null → final_awaiter.await_suspend c h = .noop)
    ∧ (∀ p, (h.frames c).promise.parent = .frame p → (h.frames p).done = true →
        final_awaiter.await_suspend c h = .noop)
    ∧ (∀ p, (h.frames c).promise.parent = .frame p → (h.frames p).done = false →
        final_awaiter.await_suspend c h = .frame p)
    ∧ (∀ loop : Nat, (promise.ctor loop : promise E (ValueSlot k R)).parent = .null)
    ∧ (∀ (evs : List (Nat × BodyEvent E R)) (h2 : Heap E (ValueSlot k R)),
        (h.frames c).promise.parent = .null → h.run_body k evs = some h2 →
          final_awaiter.await_suspend c h2 = .noop) := by
  have hnull : ∀ g : Heap E (ValueSlot k R), (g.frames c).promise.parent = .null →
      final_awaiter.await_suspend c g = .noop := by
    intro g hg
    simp [final_awaiter.await_suspend, hg, coroutine_handle.toBool]
  refine ⟨rfl, ?_, ?_, hnull h, ?_, ?_, fun _ => rfl, ?_⟩
  · cases hp : (h.frames c).promise.parent with
    | null => simp [final_awaiter.await_suspend, hp, coroutine_handle.toBool]
    | noop =>
      simp [final_awaiter.await_suspend, hp, coroutine_handle.toBool, coroutine_handle.done]
    | frame p =>
      by_cases hd : (h.frames p).done = true
      · simp [final_awaiter.await_suspend, hp, coroutine_handle.toBool,
          coroutine_handle.done, hd]
      · simp [final_awaiter.await_suspend, hp, coroutine_handle.toBool,
          coroutine_handle.done, hd]
  · intro hn
    unfold final_awaiter.await_suspend
    simp only []
    split
    · next hc =>
      exfalso
      apply hn
      simpa using hc
    · rfl
  · intro p hp hd
    simp [final_awaiter.await_suspend, hp, coroutine_handle.toBool, coroutine_handle.done, hd]
  · intro p hp hd
    simp [final_awaiter.await_suspend, hp, coroutine_handle.toBool, coroutine_handle.done, hd]
  · intro evs h2 hp hr
    apply hnull h2
    rw [Heap.run_body_parent k evs h h2 hr c, hp]

/-- Instance of C11: a frame whose recorded parent, the frame at 1, is
finished ends in the no-op continuation. -/
theorem final_awaiter_returns_live_parent_or_noop_witness :
    final_awaiter.await_suspend 0 finished_parent_heap = .noop :=
  (final_awaiter_returns_live_parent_or_noop .value 0 finished_parent_heap).2.2.2.2.1 1 rfl rfl

/-! ## The result holder -/

/-- C13: the awaiter that `await_transform` builds around the awaitable stored
at `a` refers to that very object, and each of its members is the forwarded
member of the awaitable: `await_ready` returns what `a.await_ready()` returns,
`await_suspend(c)` what `a.await_suspend(c)` returns, `await_resume` what
`a.await_resume()` returns, or nothing for a `void` result after performing
that call; the state the call leaves is stored at `a` and no other object
changes. -/
theorem id_awaiter_is_pass_through {σ ρ : Type} (T : Awaitable σ ρ) (U : Awaitable σ Unit)
    (a : Nat) (c : coroutine_handle) (m : ObjectStore σ) :
    (promise.await_transform a).aw = a
    ∧ id_awaiter.await_ready T (promise.await_transform a) m = forwarded_ready T a m
    ∧ id_awaiter.await_suspend T (promise.await_transform a) c m = forwarded_suspend T a c m
    ∧ id_awaiter.await_resume T (promise.await_transform a) m = forwarded_resume T a m
    ∧ id_awaiter.await_resume_void U (promise.await_transform a) m
        = ((), (forwarded_resume U a m).2)
    ∧ (id_awaiter.await_ready T (promise.await_transform a) m).1 = (T.await_ready (m a)).1
    ∧ (id_awaiter.await_suspend T (promise.await_transform a) c m).1
        = (T.await_suspend c (m a)).1
    ∧ (id_awaiter.await_resume T (promise.await_transform a) m).1 = (T.await_resume (m a)).1
    ∧ (id_awaiter.await_ready T (promise.await_transform a) m).2 a = (T.await_ready (m a)).2
    ∧ (id_awaiter.await_suspend T (promise.await_transform a) c m).2 a
        = (T.await_suspend c (m a)).2
    ∧ (id_awaiter.await_resume T (promise.await_transform a) m).2 a = (T.await_resume (m a)).2
    ∧ (id_awaiter.await_resume_void U (promise.await_transform a) m).2 a
        = (U.await_resume (m a)).2
    ∧ (∀ b, b ≠ a →
        (id_awaiter.await_ready T (promise.await_transform a) m).2 b = m b
        ∧ (id_awaiter.await_suspend T (promise.await_transform a) c m).2 b = m b
        ∧ (id_awaiter.await_resume T (promise.await_transform a) m).2 b = m b
        ∧ (id_awaiter.await_resume_void U (promise.await_transform a) m).2 b = m b) := by
  have hupd : ∀ x : σ, Function.update m a x = fun b => if b = a then x else m b := by
    intro x
    funext b
    exact Function.update_apply m a x b
  refine ⟨rfl, ?_, ?_, ?_, ?_, rfl, rfl, rfl, ?_, ?_, ?_, ?_, ?_⟩
  · simp only [id_awaiter.await_ready, ObjectStore.call, promise.await_transform,
      id_awaiter.ctor, forwarded_ready, hupd]
  · simp only [id_awaiter.await_suspend, ObjectStore.call, promise.await_transform,
      id_awaiter.ctor, forwarded_suspend, hupd]
  · simp only [id_awaiter.await_resume, ObjectStore.call, promise.await_transform,
      id_awaiter.ctor, forwarded_resume, hupd]
  · simp only [id_awaiter.await_resume_void, ObjectStore.call, promise.await_transform,
      id_awaiter.ctor, forwarded_resume, hupd]
  · simp [id_awaiter.await_ready, ObjectStore.call, promise.await_transform, id_awaiter.ctor]
  · simp [id_awaiter.await_suspend, ObjectStore.call, promise.await_transform,
      id_awaiter.ctor]
  · simp [id_awaiter.await_resume, ObjectStore.call, promise.await_transform, id_awaiter.ctor]
  · simp [id_awaiter.await_resume_void, ObjectStore.call, promise.await_transform,
      id_awaiter.ctor]
  · intro b hb
    simp [id_awaiter.await_ready, id_awaiter.await_suspend, id_awaiter.await_resume,
      id_awaiter.await_resume_void, ObjectStore.call, promise.await_transform,
      id_awaiter.ctor, Function.update_noteq hb]

/-- Instance of C13: a counter that becomes ready once it has been asked
twice, stored at address 3 with count 1; the wrapped call reports ready and
leaves count 2 at address 3 and the object at address 4 alone. -/
theorem id_awaiter_is_pass_through_witness :
    (id_awaiter.await_ready counting_awaitable (promise.await_transform 3)
        (fun _ => 1)).1 = true
    ∧ (id_awaiter.await_ready counting_awaitable (promise.await_transform 3)
        (fun _ => 1)).2 3 = 2
    ∧ (id_awaiter.await_ready counting_awaitable (promise.await_transform 3)
        (fun _ => 1)).2 4 = 1 :=
  have w := id_awaiter_is_pass_through counting_awaitable
    ⟨fun n => (true, n), fun c n => (c, n), fun n => ((), n)⟩ 3 .noop (fun _ => 1)
  ⟨w.2.2.2.2.2.1, w.2.2.2.2.2.2.2.2.1, (w.2.2.2.2.2.2.2.2.2.2.2.2 4 (by decide)).1⟩

/-! ## Kernel-completion awaiters -/

/-- Every awaiter on which `complete` has not been called has result code 0
and flags 0, and this is kept by every operation on the pool. -/
theorem AwaiterPool.step_fresh (p : AwaiterPool) (op : AwaiterOp)
    (hp : ∀ i aw, p.awaiters i = some aw → i ∉ p.completed → aw.res = 0 ∧ aw.flags = 0) :
    ∀ i aw, (p.step op).awaiters i = some aw → i ∉ (p.step op).completed →
      aw.res = 0 ∧ aw.flags = 0 := by
  intro i aw hi hc
  cases op with
  | construct loop =>
    simp only [AwaiterPool.step] at hi hc
    by_cases hn : i = p.next
    · subst hn
      simp at hi
      subst hi
      exact ⟨rfl, rfl⟩
    · rw [Function.update_noteq hn] at hi
      exact hp i aw hi hc
  | construct_sleep loop ns =>
    simp only [AwaiterPool.step] at hi hc
    by_cases hn : i = p.next
    · subst hn
      simp at hi
      subst hi
      exact ⟨rfl, rfl⟩
    · rw [Function.update_noteq hn] at hi
      exact hp i aw hi hc
  | complete j res flags =>
    simp only [AwaiterPool.step] at hi hc
    cases hj : p.awaiters j with
    | none =>
      simp only [hj] at hi hc
      exact hp i aw hi hc
    | some old =>
      simp only [hj] at hi hc
      have hne : i ≠ j := by
        intro h
        apply hc
        simp [h]
      rw [Function.update_noteq hne] at hi
      exact hp i aw hi (fun hmem => hc (List.mem_cons_of_mem _ hmem))

/-- The property of `AwaiterPool.step_fresh` holds after every sequence of
operations. -/
theorem AwaiterPool.run_fresh (ops : List AwaiterOp) :
    ∀ p : AwaiterPool,
      (∀ i aw, p.awaiters i = some aw → i ∉ p.completed → aw.res = 0 ∧ aw.flags = 0) →
      ∀ i aw, (p.run ops).awaiters i = some aw → i ∉ (p.run ops).completed →
        aw.res = 0 ∧ aw.flags = 0 := by
  induction ops with
  | nil =>
    intro p hp
    exact hp
  | cons op rest ih =>
    intro p hp
    exact ih (p.step op) (AwaiterPool.step_fresh p op hp)

/-- C14: a newly constructed kernel-completion awaiter, and a newly
constructed sleep awaiter, has result code 0 and flags 0; after any sequence
of constructions and completions the next awaiter constructed is that same
fresh awaiter whatever was completed before, and every awaiter on which
`complete` has not been called still has result code 0 and flags 0. -/
theorem new_awaiter_has_zero_result_and_flags (ops : List AwaiterOp) :
    (∀ loop, (awaiter_sqe.ctor loop).res = 0 ∧ (awaiter_sqe.ctor loop).flags = 0)
    ∧ (∀ loop ns, (awaiter_sqe_sleep.ctor loop ns).res = 0
        ∧ (awaiter_sqe_sleep.ctor loop ns).flags = 0)
    ∧ (∀ loop, ((AwaiterPool.init.run ops).step (.construct loop)).awaiters
        (AwaiterPool.init.run ops).next = some { loop := loop, res := 0, flags := 0 })
    ∧ (∀ loop ns, ((AwaiterPool.init.run ops).step (.construct_sleep loop ns)).awaiters
        (AwaiterPool.init.run ops).next = some { loop := loop, res := 0, flags := 0 })
    ∧ (∀ i aw, (AwaiterPool.init.run ops).awaiters i = some aw →
        i ∉ (AwaiterPool.init.run ops).completed → aw.res = 0 ∧ aw.flags = 0) := by
  refine ⟨fun _ => ⟨rfl, rfl⟩, fun _ _ => ⟨rfl, rfl⟩, ?_, ?_, ?_⟩
  · intro loop
    simp [AwaiterPool.step, awaiter_sqe.ctor]
  · intro loop ns
    simp [AwaiterPool.step, awaiter_sqe_sleep.ctor, awaiter_sqe.ctor]
  · apply AwaiterPool.run_fresh ops AwaiterPool.init
    intro i aw hi
    simp [AwaiterPool.init] at hi

/-- Instance of C14: an awaiter is completed with result -4 and flags 7, then
a second one is constructed; the second, not completed, has result code 0 and
flags 0. -/
theorem new_awaiter_has_zero_result_and_flags_witness :
    (AwaiterPool.init.run stale_ops).awaiters 0 = some { loop := 0, res := -4, flags := 7 }
    ∧ (AwaiterPool.init.run stale_ops).completed = [0]
    ∧ ∀ aw, (AwaiterPool.init.run stale_ops).awaiters 1 = some aw →
        aw.res = 0 ∧ aw.flags = 0 :=
  ⟨rfl, rfl, fun aw haw =>
    (new_awaiter_has_zero_result_and_flags stale_ops).2.2.2.2 1 aw haw (by
      show 1 ∉ [0]
      decide)⟩

/-! ## Awaiting a task -/

/-- C15: when `await_ready()` returns false the task owns a frame and that
frame is not finished; `await_suspend` then writes the promise of that frame
(its behaviour is defined) and returns the handle of that frame, which is
still not finished.  In a system reached from the empty program the frame has
moreover been allocated and not destroyed. -/
theorem await_suspend_after_not_ready_is_safe {E R : Type} (k : ResultKind) (t : task)
    (P : coroutine_handle) (h : Heap E (ValueSlot k R)) (hnr : t.await_ready h = false) :
    ∃ (a : Nat) (h1 : Heap E (ValueSlot k R)),
      t.coro = some a
      ∧ (h.frames a).done = false
      ∧ t.await_suspend P h = some (.frame a, t, h1)
      ∧ (coroutine_handle.frame a).done h1 = false
      ∧ (∀ (ops : List (Op E R)) (s : System k E R) (i : Nat),
          (System.init k E R).run ops = some s → s.heap = h → s.tasks i = some t →
            a < s.next_frame ∧ s.destroy_count a = 0) := by
  cases hc : t.coro with
  | none => simp [task.await_ready, task.done, hc] at hnr
  | some a =>
    have hd : (h.frames a).done = false := by
      simpa [task.await_ready, task.done, hc, handle_type.done, handle_type.erase,
        coroutine_handle.done] using hnr
    refine ⟨a, h.modify_promise a (fun p => { p with parent := P }), rfl, hd, ?_, ?_, ?_⟩
    · simp [task.await_suspend, hc, handle_type.erase]
    · simp [coroutine_handle.done, Heap.modify_promise, hd]
    · intro ops s i hrun _ hti
      have hs : s.Inv := System.run_inv ops _ s (System.init_inv k E R) hrun
      exact hs.live i a ⟨t, hti, hc⟩

/-- Instance of C15: the task of the unfinished frame at 1 is not ready. -/
theorem await_suspend_after_not_ready_is_safe_witness :
    (task.ctor (some 1)).await_ready (blank_heap .value String Int) = false
    ∧ ∃ (a : Nat) (h1 : Heap String (ValueSlot .value Int)),
      (task.ctor (some 1)).coro = some a
      ∧ ((blank_heap .value String Int).frames a).done = false
      ∧ (task.ctor (some 1)).await_suspend (.frame 0) (blank_heap .value String Int)
          = some (.frame a, task.ctor (some 1), h1)
      ∧ (coroutine_handle.frame a).done h1 = false := by
  obtain ⟨a, h1, w1, w2, w3, w4, _⟩ :=
    await_suspend_after_not_ready_is_safe (E := String) (R := Int) .value
      (task.ctor (some 1)) (.frame 0) (blank_heap .value String Int) rfl
  exact ⟨rfl, a, h1, w1, w2, w3, w4⟩

/-! ## A promise before its body ends -/

/-- C16: the result holder of a newly constructed promise is in alternative 0
with a null `exception_ptr`, not in the value alternative; as long as the
holder of the frame a task owns is as constructed, `await_resume()` takes the
rethrow branch with that null pointer, for value, reference and void results,
returns no value and changes nothing.  The task that a coroutine call hands
out is in this situation. -/
theorem fresh_promise_holds_null_failure {E R : Type} (k : ResultKind) (t : task) (a : Nat)
    (h : Heap E (ValueSlot k R)) (loop : Nat) (hown : t.coro = some a)
    (hfresh : (h.frames a).promise.result
      = (promise.ctor loop : promise E (ValueSlot k R)).result) :
    (promise.ctor loop : promise E (ValueSlot k R)).result = .exception none
    ∧ (promise.ctor loop : promise E (ValueSlot k R)).result.index = 0
    ∧ (∀ v, (promise.ctor loop : promise E (ValueSlot k R)).result ≠ .value v)
    ∧ task.await_resume k t h = (.error (.rethrow_exception none), t, h)
    ∧ (∀ v, (task.await_resume k t h).1 ≠ .ok v)
    ∧ (∀ (s : System k E R) (l : Nat),
        task.await_resume k (promise.get_return_object s.next_frame) (s.call l).heap
          = (.error (.rethrow_exception none), promise.get_return_object s.next_frame,
              (s.call l).heap)) := by
  have key : ∀ (u : task) (b : Nat) (g : Heap E (ValueSlot k R)), u.coro = some b →
      (g.frames b).promise.result = .exception none →
      task.await_resume k u g = (.error (.rethrow_exception none), u, g) := by
    intro u b g hu hg
    cases k <;> simp only [task.await_resume, hu] <;> rw [hg]
  have hk := key t a h hown hfresh
  refine ⟨rfl, rfl, ?_, hk, ?_, ?_⟩
  · intro v hv
    cases hv
  · intro v hv
    rw [hk] at hv
    cases hv
  · intro s l
    apply key _ s.next_frame _ rfl
    simp [System.call, promise.ctor]

/-- Instance of C16: the task of the frame at 0 in a heap of newly
constructed frames. -/
theorem fresh_promise_holds_null_failure_witness :
    (task.ctor (some 0)).coro = some 0
    ∧ task.await_resume .value (task.ctor (some 0)) (blank_heap .value String Int)
        = (.error (.rethrow_exception none), task.ctor (some 0),
            blank_heap .value String Int) :=
  ⟨rfl, (fresh_promise_holds_null_failure (E := String) (R := Int) .value
    (task.ctor (some 0)) 0 (blank_heap .value String Int) 0 rfl rfl).2.2.2.1⟩

/-! ## Self-assignment -/

/-- C17: move-assigning a live task object to itself changes nothing: the
system after the assignment is the system before it, so the object holds the
same handle and the same started flag, and no `destroy()` call has been
issued. -/
theorem self_move_assign_is_noop {k : ResultKind} {E R : Type} (s : System k E R)
    (obj : Nat) (t : task) (ht : s.tasks obj = some t) :
    s.step (.move_assign obj obj) = some s
    ∧ (∀ s1, s.step (.move_assign obj obj) = some s1 →
        s1.tasks obj = some t
        ∧ (∀ u, s1.tasks obj = some u → u.coro = t.coro ∧ u.was_started = t.was_started)
        ∧ s1.heap.trace = s.heap.trace
        ∧ (∀ a, s1.destroy_count a = s.destroy_count a)
        ∧ s1.heap.frames = s.heap.frames) := by
  have hstep : s.step (.move_assign obj obj) = some s := by
    simp [System.step, System.move_assign, ht]
  refine ⟨hstep, ?_⟩
  intro s1 h1
  rw [hstep, Option.some.injEq] at h1
  subst h1
  refine ⟨ht, ?_, rfl, fun _ => rfl, rfl⟩
  intro u hu
  rw [ht, Option.some.injEq] at hu
  subst hu
  exact ⟨rfl, rfl⟩

/-- Instance of C17: the task of a freshly called coroutine is assigned to
itself. -/
theorem self_move_assign_is_noop_witness :
    demo_called.tasks 0 = some (task.ctor (some 0))
    ∧ demo_called.step (.move_assign 0 0) = some demo_called :=
  ⟨rfl, (self_move_assign_is_noop demo_called 0 (task.ctor (some 0)) rfl).1⟩

end covent
